import Mathlib

/-!
Shallow embedding of the AgentDiplomacy match engine
(`src/engine/GameState.js` and `src/engine/ReputationEngine.js`)
and proofs about its specification claims.

JavaScript `Map` objects are modelled as insertion-ordered association
lists with unique keys (`JsMap`); `Map.get` / `Map.set` / `Map.delete`
become `mapGet` / `mapSet` / `mapDelete`.  JavaScript numbers that can be
fractional (move army payloads, random samples, trust scores) are
modelled as rationals; counters and integer-valued quantities are `Nat`
or `Int`.  `Math.random()` draws are passed in as explicit oracle
parameters, and `Date.now()` as explicit `now : Nat` parameters.
-/

/-- Association-list model of a JavaScript `Map` with string keys. -/
abbrev JsMap (α : Type) := List (String × α)

/-- Model of `Map.prototype.get`: the value stored at the first (unique)
occurrence of the key. -/
def mapGet {α : Type} (m : JsMap α) (k : String) : Option α :=
  match m with
  | [] => none
  | (k', v) :: rest => if k' = k then some v else mapGet rest k

/-- Model of `Map.prototype.set`: overwrite in place if the key is
present, else append (JS maps preserve insertion order). -/
def mapSet {α : Type} (m : JsMap α) (k : String) (v : α) : JsMap α :=
  match m with
  | [] => [(k, v)]
  | (k', v') :: rest => if k' = k then (k, v) :: rest else (k', v') :: mapSet rest k v

/-- Model of `Map.prototype.delete`: remove the entry for the key. -/
def mapDelete {α : Type} (m : JsMap α) (k : String) : JsMap α :=
  match m with
  | [] => []
  | (k', v') :: rest => if k' = k then rest else (k', v') :: mapDelete rest k

/-- Keys of a map, in order. -/
def mapKeys {α : Type} (m : JsMap α) : List String := m.map Prod.fst

/-- JavaScript truthiness of an optional string (`undefined` and the
empty string are falsy). -/
def truthyStr : Option String → Bool
  | none => false
  | some s => s != ""

/-- JavaScript `Math.round` on a rational: round half toward positive
infinity. -/
def jsRound (q : ℚ) : ℤ := ⌊q + 1 / 2⌋

/-- A move payload as validated by `GameState.validateMove`
(`{type, from?, to?, armies?}`).  The `from` field is called `fromT` and
the `to` field `toT` because both are reserved words in Lean. -/
structure Move where
  type : String
  fromT : Option String
  toT : Option String
  armies : Option ℚ
deriving DecidableEq

/-- A signed move commitment as stored by `GameState.commitMove`. -/
structure Commitment where
  agentId : String
  move : Move
  signature : String
  timestamp : Nat
  hash : String
deriving DecidableEq

/-- A revealed move: a commitment plus its reveal timestamp
(`GameState.revealMoves`). -/
structure RevealedMove where
  c : Commitment
  revealedAt : Nat
deriving DecidableEq

/-- A territory record as created by `GameState.initializeMap`. -/
structure Territory where
  id : String
  name : String
  region : String
  owner : Option String
  armies : Int
  resources : Nat
  neighbors : List String
  continent : String
deriving DecidableEq

/-- A continent record (`getMapDefinitions().continents`). -/
structure Continent where
  name : String
  bonus : Nat
  territories : List String
deriving DecidableEq

/-- A participant record as stored by `GameState.addAgent`. -/
structure Agent where
  id : String
  name : String
  color : String
  personality : Option String
  territories : List String
  armies : Int
  resources : Nat
  eliminated : Bool
deriving DecidableEq

/-- A conversation log entry (`GameState.logConversation`). -/
structure ConvEntry where
  agentId : String
  message : String
  ctype : String
  turn : Nat
  phase : String
  timestamp : Nat
deriving DecidableEq

/-- A phase-history entry pushed by `GameState.setPhase`. -/
structure HistEntry where
  turn : Nat
  phase : String
  timestamp : Nat
deriving DecidableEq

/-- The mutable state of one match (`class GameState`). -/
structure GameState where
  gameId : String
  phase : String
  turn : Nat
  maxTurns : Nat
  agents : JsMap Agent
  territories : JsMap Territory
  continents : JsMap Continent
  moves : JsMap Commitment
  revealedMoves : JsMap RevealedMove
  conversations : List ConvEntry
  history : List HistEntry
  winner : Option String
  phaseStartTime : Option Nat
deriving DecidableEq

/-- Errors thrown by the engine, named per the spec taxonomy: the
`throw new Error('Not in commit phase')` in `commitMove` is the spec's
`PhaseViolationError`, `throw new Error('Invalid move structure')` its
`ValidationError`. -/
inductive GameError where
  | phaseViolation
  | validationError
deriving DecidableEq

/-- Modelled from the spec: the content hash of a commitment
(`crypto.createHash('sha256').update(JSON.stringify(move)).digest('hex')`)
uses a library outside this repository; it is modelled as a
deterministic serialization of the move payload. -/
def moveContentHash (m : Move) : String :=
  m.type ++ "|" ++ m.fromT.getD "-" ++ "|" ++ m.toT.getD "-" ++ "|" ++
    (match m.armies with
     | none => "-"
     | some a => toString a.num ++ "/" ++ toString a.den)

/-- `GameState.getActiveAgents`: all non-eliminated participants, in
insertion order. -/
def getActiveAgents (st : GameState) : List Agent :=
  (st.agents.map Prod.snd).filter (fun a => !a.eliminated)

/-- `GameState.validateMove`: structural validation of a move payload.
The JS code checks, in order: the type is one of five kinds; for
`attack`/`move`, `from` and `to` are truthy and name existing
territories; `armies`, when present, is a number that is not `< 1`. -/
def validateMove (st : GameState) (move : Move) : Bool :=
  if ¬ (move.type = "attack" ∨ move.type = "defend" ∨ move.type = "support" ∨
        move.type = "move" ∨ move.type = "none") then false
  else if (move.type = "attack" ∨ move.type = "move") ∧
          ¬ (truthyStr move.fromT = true ∧ truthyStr move.toT = true) then false
  else if (move.type = "attack" ∨ move.type = "move") ∧
          ¬ ((mapGet st.territories (move.fromT.getD "")).isSome = true ∧
             (mapGet st.territories (move.toT.getD "")).isSome = true) then false
  else
    match move.armies with
    | some a => if a < 1 then false else true
    | none => true

/-- `GameState.commitMove`: legal only in the commit phase; validates the
move, stores a signed commitment keyed by participant id, and reports
whether the commitment count now equals the active-participant count
(the `allMovesCommitted` signal).  Throws are modelled as `Except`
errors paired with the (unchanged) state. -/
def commitMove (st : GameState) (agentId : String) (move : Move)
    (signature : String) (now : Nat) :
    GameState × Except GameError (Commitment × Bool) :=
  if st.phase ≠ "commit" then (st, .error .phaseViolation)
  else if ¬ validateMove st move = true then (st, .error .validationError)
  else
    let c : Commitment :=
      { agentId := agentId, move := move, signature := signature,
        timestamp := now, hash := moveContentHash move }
    let st1 := { st with moves := mapSet st.moves agentId c }
    (st1, .ok (c, st1.moves.length = (getActiveAgents st1).length))

/-- The specification's reading of `validateMove` as stated in claim C9:
identical to the code except that `armies`, when present, must be a
positive integer. -/
def validateMoveClaimC9 (st : GameState) (move : Move) : Bool :=
  if ¬ (move.type = "attack" ∨ move.type = "defend" ∨ move.type = "support" ∨
        move.type = "move" ∨ move.type = "none") then false
  else if (move.type = "attack" ∨ move.type = "move") ∧
          ¬ (move.fromT.isSome = true ∧ move.toT.isSome = true ∧
             (mapGet st.territories (move.fromT.getD "")).isSome = true ∧
             (mapGet st.territories (move.toT.getD "")).isSome = true) then false
  else
    match move.armies with
    | some a => if a.den = 1 ∧ 1 ≤ a.num then true else false
    | none => true

/-- A one-territory, no-agent state used as a concrete input. -/
def exStateC9 : GameState :=
  { gameId := "g1", phase := "commit", turn := 1, maxTurns := 10,
    agents := [], continents := [],
    territories := [("na1",
      { id := "na1", name := "Alaska", region := "NA", owner := none,
        armies := 0, resources := 1, neighbors := ["na2"], continent := "na" })],
    moves := [], revealedMoves := [], conversations := [], history := [],
    winner := none, phaseStartTime := none }

/-- A move whose `armies` field is the non-integer number 3/2. -/
def exMoveC9 : Move :=
  { type := "none", fromT := none, toT := none, armies := some (3 / 2) }

/-- C9 counterexample: `validateMove` accepts the move
`{type: 'none', armies: 1.5}` although its `armies` value is not a
positive integer, so the claimed characterization (which demands a
positive integer) fails on the code: the code only rejects `armies`
values that are less than 1 and never checks integrality. -/
theorem validateMove_C9_counterexample :
    validateMove exStateC9 exMoveC9 = true ∧
    validateMoveClaimC9 exStateC9 exMoveC9 = false := by
  constructor
  · show (if _ then _ else _) = true
    rw [if_neg (by simp [exMoveC9])]
    rw [if_neg (by simp [exMoveC9])]
    rw [if_neg (by simp [exMoveC9])]
    show (match exMoveC9.armies with
          | some a => if a < 1 then false else true
          | none => true) = true
    show (if (3 / 2 : ℚ) < 1 then false else true) = true
    rw [if_neg (by norm_num)]
  · show (if _ then _ else _) = false
    rw [if_neg (by simp [exMoveC9])]
    rw [if_neg (by simp [exMoveC9])]
    show (match exMoveC9.armies with
          | some a => if a.den = 1 ∧ 1 ≤ a.num then true else false
          | none => true) = false
    show (if ((3 / 2 : ℚ)).den = 1 ∧ 1 ≤ ((3 / 2 : ℚ)).num then true else false) = false
    rw [if_neg (by norm_num [Rat.den_div_eq_of_coprime])]

/-- C9 (amended): `validateMove` accepts a move iff its type is one of
attack, defend, support, move, none; when the type is attack or move,
both `from` and `to` are present and are existing territory ids; and
`armies`, whenever present, is a number that is at least 1 (integrality
is not checked).  The hypothesis that the empty string is not a
territory id holds for every map the engine builds; it aligns the
JavaScript truthiness test on `from`/`to` with their existence check. -/
theorem validateMove_C9_amended (st : GameState) (move : Move)
    (hempty : mapGet st.territories "" = none) :
    validateMove st move = true ↔
      ((move.type = "attack" ∨ move.type = "defend" ∨ move.type = "support" ∨
        move.type = "move" ∨ move.type = "none") ∧
       ((move.type = "attack" ∨ move.type = "move") →
         ∃ f t, move.fromT = some f ∧ move.toT = some t ∧
           (mapGet st.territories f).isSome = true ∧
           (mapGet st.territories t).isSome = true) ∧
       (∀ a : ℚ, move.armies = some a → 1 ≤ a)) := by
  unfold validateMove
  constructor
  · intro h
    split_ifs at h with h1 h2 h3
    · refine ⟨h1, ?_, ?_⟩
      · intro ham
        have htr : truthyStr move.fromT = true ∧ truthyStr move.toT = true := by
          by_contra hcon
          exact h2 ⟨ham, hcon⟩
        have hex : (mapGet st.territories (move.fromT.getD "")).isSome = true ∧
            (mapGet st.territories (move.toT.getD "")).isSome = true := by
          by_contra hcon
          exact h3 ⟨ham, hcon⟩
        obtain ⟨htrf, htrt⟩ := htr
        match hfx : move.fromT, htx : move.toT with
        | some f, some t =>
          refine ⟨f, t, rfl, rfl, ?_, ?_⟩
          · have := hex.1
            rwa [hfx] at this
          · have := hex.2
            rwa [htx] at this
        | some f, none => rw [htx] at htrt; simp [truthyStr] at htrt
        | none, _ => rw [hfx] at htrf; simp [truthyStr] at htrf
      · intro a ha
        by_contra hlt
        push_neg at hlt
        simp only [ha] at h
        rw [if_pos hlt] at h
        exact absurd h (by simp)
  · rintro ⟨hty, hft, harm⟩
    rw [if_neg (not_not_intro hty)]
    have hside : (move.type = "attack" ∨ move.type = "move") →
        truthyStr move.fromT = true ∧ truthyStr move.toT = true ∧
        (mapGet st.territories (move.fromT.getD "")).isSome = true ∧
        (mapGet st.territories (move.toT.getD "")).isSome = true := by
      intro ham
      obtain ⟨f, t, hf, ht, hfex, htex⟩ := hft ham
      have hfne : f ≠ "" := by
        intro hfe
        rw [hfe, hempty] at hfex
        simp at hfex
      have htne : t ≠ "" := by
        intro hte
        rw [hte, hempty] at htex
        simp at htex
      refine ⟨?_, ?_, ?_, ?_⟩
      · rw [hf]; simp [truthyStr, hfne]
      · rw [ht]; simp [truthyStr, htne]
      · rw [hf]; simpa using hfex
      · rw [ht]; simpa using htex
    rw [if_neg (by
      rintro ⟨ham, hcon⟩
      exact hcon ⟨(hside ham).1, (hside ham).2.1⟩)]
    rw [if_neg (by
      rintro ⟨ham, hcon⟩
      exact hcon ⟨(hside ham).2.2.1, (hside ham).2.2.2⟩)]
    cases hax : move.armies with
    | none => rfl
    | some a =>
      have h1a := harm a hax
      show (if a < 1 then false else true) = true
      rw [if_neg (not_lt.mpr h1a)]

/-- C9 amended-claim witness at a concrete input: the example state has
no empty-string territory, and a well-formed defend move with two armies
is accepted. -/
theorem validateMove_C9_amended_witness :
    validateMove exStateC9
      { type := "defend", fromT := none, toT := none, armies := some 2 } = true := by
  have h := validateMove_C9_amended exStateC9
    { type := "defend", fromT := none, toT := none, armies := some 2 } (by decide)
  refine h.mpr ⟨by simp, by simp, ?_⟩
  intro a ha
  simp only [Option.some.injEq] at ha
  rw [← ha]
  norm_num

/-- C2: calling `commitMove` while the match phase is anything other
than `commit` fails with `PhaseViolationError` and returns the state
unchanged: no commitment is stored, no content hash is computed, and no
all-committed signal is produced (the JS code throws before any
mutation). -/
theorem commitMove_phase_violation (st : GameState) (agentId : String)
    (move : Move) (signature : String) (now : Nat)
    (h : st.phase ≠ "commit") :
    commitMove st agentId move signature now = (st, .error .phaseViolation) := by
  unfold commitMove
  rw [if_pos h]

/-- C2 witness: a concrete call in the lobby phase is rejected with a
phase violation and the state it returns is the input state. -/
theorem commitMove_phase_violation_witness :
    commitMove { exStateC9 with phase := "lobby" } "a1"
      { type := "none", fromT := none, toT := none, armies := none } "sig" 0 =
      ({ exStateC9 with phase := "lobby" }, .error .phaseViolation) :=
  commitMove_phase_violation { exStateC9 with phase := "lobby" } "a1"
    { type := "none", fromT := none, toT := none, armies := none } "sig" 0 (by decide)

/-- `GameState.setPhase`: record the new phase, stamp the phase start
time, and push a history entry. -/
def setPhase (st : GameState) (phase : String) (now : Nat) : GameState :=
  { st with phase := phase, phaseStartTime := some now,
            history := st.history ++ [{ turn := st.turn, phase := phase, timestamp := now }] }

/-- The `ownsAll` check inside `calculateReinforcements`: every member
territory of the continent exists and is owned by the participant. -/
def ownsAllContinent (st : GameState) (agentId : String) (c : Continent) : Bool :=
  c.territories.all (fun tid =>
    match mapGet st.territories tid with
    | some t => t.owner == some agentId
    | none => false)

/-- `GameState.calculateReinforcements`: base `max(3, floor(T/3))`, plus
every fully-owned continent's bonus, plus `floor(resources/5)`; the
spent resources (`5 * floor(resources/5)`) are consumed from the pool.
Returns the updated state together with the reinforcement count
(`0` for a missing or eliminated participant, with no state change). -/
def calculateReinforcements (st : GameState) (agentId : String) : GameState × Nat :=
  match mapGet st.agents agentId with
  | none => (st, 0)
  | some ag =>
    if ag.eliminated then (st, 0)
    else
      let base := max 3 (ag.territories.length / 3)
      let withContinents := st.continents.foldl
        (fun acc p => if ownsAllContinent st agentId p.2 then acc + p.2.bonus else acc) base
      let resourceBonus := ag.resources / 5
      let ag1 := { ag with resources := ag.resources - resourceBonus * 5 }
      ({ st with agents := mapSet st.agents agentId ag1 },
       withContinents + resourceBonus)

/-- Folding `acc + f p` over the elements satisfying `P` equals the base
plus the sum of `f` over the filtered list. -/
theorem foldl_add_if_eq_sum {α : Type} (f : α → Nat) (P : α → Bool) :
    ∀ (l : List α) (b : Nat),
      l.foldl (fun acc p => if P p then acc + f p else acc) b =
        b + ((l.filter P).map f).sum := by
  intro l
  induction l with
  | nil => intro b; simp
  | cons x xs ih =>
    intro b
    by_cases h : P x = true <;> simp [List.filter_cons, h, ih, Nat.add_assoc]

/-- C4: for a present, non-eliminated participant with `T` owned
territories, resource pool `R` and some set of fully owned continents,
`calculateReinforcements` returns
`max(3, floor(T/3)) + (sum of fully-owned continent bonuses) + floor(R/5)`
and decrements the participant's resource pool by exactly
`5 * floor(R/5)`, leaving everything else unchanged. -/
theorem calculateReinforcements_spec (st : GameState) (agentId : String)
    (ag : Agent) (hag : mapGet st.agents agentId = some ag)
    (helim : ag.eliminated = false) :
    calculateReinforcements st agentId =
      ({ st with agents := mapSet st.agents agentId ({ ag with resources := ag.resources - 5 * (ag.resources / 5) }) },
       max 3 (ag.territories.length / 3) +
         (((st.continents.filter (fun p => ownsAllContinent st agentId p.2)).map
             (fun p => p.2.bonus)).sum) +
         ag.resources / 5) := by
  unfold calculateReinforcements
  rw [hag]
  simp only [helim, Bool.false_eq_true, if_false]
  rw [foldl_add_if_eq_sum (fun p => p.2.bonus)
        (fun p => ownsAllContinent st agentId p.2) st.continents
        (max 3 (ag.territories.length / 3))]
  rw [Nat.mul_comm (ag.resources / 5) 5]

/-- The participant of the C4 witness: 9 territories, 12 resources. -/
def exAgentC4 : Agent :=
  { id := "a1", name := "Alpha", color := "#f00", personality := some "balanced",
    territories := ["t1", "t2", "t3", "t4", "t5", "t6", "t7", "t8", "t9"],
    armies := 27, resources := 12, eliminated := false }

/-- A state holding the C4 witness participant and no continents. -/
def exStateC4 : GameState :=
  { gameId := "g4", phase := "resolve", turn := 2, maxTurns := 10,
    agents := [("a1", exAgentC4)], continents := [], territories := [],
    moves := [], revealedMoves := [], conversations := [], history := [],
    winner := none, phaseStartTime := none }

/-- C4 witness: a participant with 9 territories, 12 resources and no
fully owned continent receives 5 reinforcements and is left with 2
resources. -/
theorem calculateReinforcements_witness :
    (calculateReinforcements exStateC4 "a1").2 = 5 ∧
    (mapGet (calculateReinforcements exStateC4 "a1").1.agents "a1").map
      Agent.resources = some 2 := by
  have h := calculateReinforcements_spec exStateC4 "a1" exAgentC4 (by decide) (by decide)
  rw [h]
  constructor
  · decide
  · decide

/-- The territory-dominance test of `checkWinCondition`
(`agent.territories.length / totalTerritories >= 0.6`).  The JS double
comparison coincides with the exact rational comparison
`10 * owned >= 6 * total` for every pair of counts the engine can
produce (both at most 42), because `x / y` is correctly rounded and the
double literal `0.6` is the rounding of the real 3/5. -/
def dominatesB (st : GameState) (a : Agent) : Bool :=
  decide (10 * a.territories.length ≥ 6 * st.territories.length)

/-- Head of the stable descending sort by territory count
(`activeAgents.sort((a,b) => b.territories.length - a.territories.length)[0]`):
the first list element attaining the maximal territory count. -/
def argmaxTerritories : List Agent → Option Agent
  | [] => none
  | a :: rest =>
    match argmaxTerritories rest with
    | none => some a
    | some b => if b.territories.length > a.territories.length then some b else some a

/-- `GameState.checkWinCondition`: elimination victory, then territory
dominance, then the max-turn tiebreak; on a win the winner is recorded
and the phase set to `ended`, otherwise the state is untouched and the
result `none`.  The result pairs the new state with the optional
`(type, winner)` record. -/
def checkWinCondition (st : GameState) (now : Nat) : GameState × Option (String × String) :=
  let active := getActiveAgents st
  if active.length = 1 then
    match active.head? with
    | some a => (setPhase { st with winner := some a.id } "ended" now,
                 some ("elimination", a.id))
    | none => (st, none)
  else
    match active.find? (dominatesB st) with
    | some a => (setPhase { st with winner := some a.id } "ended" now,
                 some ("domination", a.id))
    | none =>
      if st.turn ≥ st.maxTurns then
        match argmaxTerritories active with
        | some a => (setPhase { st with winner := some a.id } "ended" now,
                     some ("turns", a.id))
        | none => (st, none)
      else (st, none)

/-- The descending territory sort of a nonempty list has a head. -/
theorem argmaxTerritories_eq_none {l : List Agent}
    (h : argmaxTerritories l = none) : l = [] := by
  cases l with
  | nil => rfl
  | cons x xs =>
    exfalso
    rw [argmaxTerritories] at h
    cases hx : argmaxTerritories xs with
    | none =>
      rw [hx] at h
      exact Option.noConfusion h
    | some b =>
      rw [hx] at h
      replace h : (if b.territories.length > x.territories.length
          then some b else some x) = none := h
      by_cases hc : b.territories.length > x.territories.length
      · rw [if_pos hc] at h
        exact Option.noConfusion h
      · rw [if_neg hc] at h
        exact Option.noConfusion h

/-- The head of the descending territory sort is a list member with
maximal territory count. -/
theorem argmaxTerritories_spec (l : List Agent) (a : Agent)
    (h : argmaxTerritories l = some a) :
    a ∈ l ∧ ∀ b ∈ l, b.territories.length ≤ a.territories.length := by
  induction l generalizing a with
  | nil => simp [argmaxTerritories] at h
  | cons x xs ih =>
    rw [argmaxTerritories] at h
    cases hx : argmaxTerritories xs with
    | none =>
      rw [hx] at h
      replace h : some x = some a := h
      obtain rfl : x = a := by injection h
      have hxs : xs = [] := argmaxTerritories_eq_none hx
      subst hxs
      exact ⟨by simp, by simp⟩
    | some b =>
      rw [hx] at h
      replace h : (if b.territories.length > x.territories.length
          then some b else some x) = some a := h
      obtain ⟨hbmem, hbmax⟩ := ih b hx
      by_cases hcmp : b.territories.length > x.territories.length
      · rw [if_pos hcmp] at h
        obtain rfl : b = a := by injection h
        refine ⟨List.mem_cons_of_mem x hbmem, ?_⟩
        intro c hc
        rcases List.mem_cons.mp hc with rfl | hcxs
        · omega
        · exact hbmax c hcxs
      · rw [if_neg hcmp] at h
        obtain rfl : x = a := by injection h
        push_neg at hcmp
        refine ⟨List.mem_cons_self _ _, ?_⟩
        intro c hc
        rcases List.mem_cons.mp hc with rfl | hcxs
        · exact le_refl _
        · exact le_trans (hbmax c hcxs) hcmp

/-- C3: `checkWinCondition` evaluates its three win conditions in strict
priority order.  (1) A single surviving participant wins by elimination
unconditionally (in particular even if some participant holds at least
60 percent of territories); (2) otherwise the first active participant
holding at least 60 percent of the territories wins by domination;
(3) otherwise, once the turn counter has reached the configured
maximum, the first participant with the highest territory count wins;
each win records the winner and transitions the phase to `ended`
(via `setPhase`), and in all remaining cases the state is returned
unchanged with no winner declared. -/
theorem checkWinCondition_spec (st : GameState) (now : Nat) :
    (∀ a : Agent, getActiveAgents st = [a] →
      checkWinCondition st now =
        (setPhase { st with winner := some a.id } "ended" now,
         some ("elimination", a.id))) ∧
    ((getActiveAgents st).length ≠ 1 →
      ∀ a : Agent, (getActiveAgents st).find? (dominatesB st) = some a →
        checkWinCondition st now =
          (setPhase { st with winner := some a.id } "ended" now,
           some ("domination", a.id))) ∧
    ((getActiveAgents st).length ≠ 1 →
      (getActiveAgents st).find? (dominatesB st) = none →
      st.turn ≥ st.maxTurns →
      ∀ a : Agent, argmaxTerritories (getActiveAgents st) = some a →
        checkWinCondition st now =
          (setPhase { st with winner := some a.id } "ended" now,
           some ("turns", a.id)) ∧
        (∀ b ∈ getActiveAgents st, b.territories.length ≤ a.territories.length)) ∧
    ((getActiveAgents st).length ≠ 1 →
      (getActiveAgents st).find? (dominatesB st) = none →
      st.turn < st.maxTurns →
      checkWinCondition st now = (st, none)) := by
  refine ⟨?_, ?_, ?_, ?_⟩
  · intro a ha
    simp only [checkWinCondition, ha]
    rfl
  · intro hlen a hfind
    simp only [checkWinCondition]
    rw [if_neg hlen, hfind]
  · intro hlen hfind hturn a hmax
    constructor
    · simp only [checkWinCondition]
      rw [if_neg hlen, hfind, if_pos hturn, hmax]
    · exact (argmaxTerritories_spec _ a hmax).2
  · intro hlen hfind hturn
    simp only [checkWinCondition]
    rw [if_neg hlen, hfind, if_neg (not_le.mpr hturn)]

/-- An eliminated participant holding plenty of territories, for the C3
witness. -/
def exAgentC3elim : Agent :=
  { id := "a2", name := "Beta", color := "#00f", personality := none,
    territories := ["t1", "t2", "t3"], armies := 9, resources := 0,
    eliminated := true }

/-- The single survivor of the C3 witness state. -/
def exAgentC3win : Agent :=
  { id := "a1", name := "Alpha", color := "#f00", personality := none,
    territories := ["t4"], armies := 3, resources := 0, eliminated := false }

/-- A state with one surviving participant while an eliminated one still
holds 3 of 4 territories (at least 60 percent). -/
def exStateC3 : GameState :=
  { gameId := "g3", phase := "resolve", turn := 3, maxTurns := 10,
    agents := [("a2", exAgentC3elim), ("a1", exAgentC3win)],
    continents := [],
    territories :=
      [("t1", { id := "t1", name := "T1", region := "r", owner := some "a2",
                armies := 3, resources := 1, neighbors := [], continent := "c" }),
       ("t2", { id := "t2", name := "T2", region := "r", owner := some "a2",
                armies := 3, resources := 1, neighbors := [], continent := "c" }),
       ("t3", { id := "t3", name := "T3", region := "r", owner := some "a2",
                armies := 3, resources := 1, neighbors := [], continent := "c" }),
       ("t4", { id := "t4", name := "T4", region := "r", owner := some "a1",
                armies := 3, resources := 1, neighbors := [], continent := "c" })],
    moves := [], revealedMoves := [], conversations := [], history := [],
    winner := none, phaseStartTime := none }

/-- C3 witness: with exactly one survivor the win is by elimination,
even though the eliminated participant holds 75 percent of the map. -/
theorem checkWinCondition_witness :
    checkWinCondition exStateC3 7 =
      (setPhase { exStateC3 with winner := some "a1" } "ended" 7,
       some ("elimination", "a1")) :=
  (checkWinCondition_spec exStateC3 7).1 exAgentC3win (by decide)

/-- Looking up the key just written returns the written value. -/
theorem mapGet_mapSet_self {α : Type} (m : JsMap α) (k : String) (v : α) :
    mapGet (mapSet m k v) k = some v := by
  induction m with
  | nil => simp [mapSet, mapGet]
  | cons p rest ih =>
    obtain ⟨k', v'⟩ := p
    by_cases h : k' = k
    · simp [mapSet, mapGet, h]
    · simp only [mapSet, mapGet, if_neg h]
      exact ih

/-- Writing one key does not change the value stored at another. -/
theorem mapGet_mapSet_ne {α : Type} (m : JsMap α) (k k' : String) (v : α)
    (h : k' ≠ k) : mapGet (mapSet m k v) k' = mapGet m k' := by
  induction m with
  | nil => simp [mapSet, mapGet, Ne.symm h]
  | cons p rest ih =>
    obtain ⟨k0, v0⟩ := p
    by_cases h0 : k0 = k
    · subst h0
      simp [mapSet, mapGet, Ne.symm h]
    · simp only [mapSet, if_neg h0]
      by_cases h1 : k0 = k'
      · simp [mapGet, h1]
      · simp only [mapGet, if_neg h1]
        exact ih

/-- One recorded betrayal, as pushed onto the betrayer's `betrayals`
list by `ReputationEngine.recordBetrayal`. -/
structure BetrayalEntry where
  victim : String
  btype : String
  turn : Option Nat
  timestamp : Nat
deriving DecidableEq

/-- One entry of a victim's `betrayedBy` list. -/
structure BetrayedByEntry where
  betrayer : String
  btype : String
  turn : Option Nat
  timestamp : Nat
deriving DecidableEq

/-- One entry of the per-participant action-history buffer
(`analyzeAction`). -/
structure RepHistEntry where
  atype : String
  target : Option String
  timestamp : Nat
deriving DecidableEq

/-- A reputation record (`ReputationEngine.initializeAgent`). -/
structure ReputationData where
  agentId : String
  name : String
  trustScore : ℚ
  dealsMade : Nat
  dealsKept : Nat
  dealsBroken : Nat
  alliancesHonored : Nat
  alliancesBroken : Nat
  betrayals : List BetrayalEntry
  betrayedBy : List BetrayedByEntry
  consistencyScore : ℚ
  aggressionScore : ℚ
  diplomacyScore : ℚ
  history : List RepHistEntry
  lastUpdated : Nat
deriving DecidableEq

/-- A deal record (`ReputationEngine.recordDeal`), with the fields that
later mutations may add modelled as options. -/
structure Deal where
  id : String
  turn : Option Nat
  proposer : String
  acceptor : String
  dealType : String
  status : String
  createdAt : Nat
  expiresAt : Option Nat
  fulfilled : JsMap Bool
  acceptedAt : Option Nat
  completedAt : Option Nat
  brokenBy : Option String
  brokenAt : Option Nat
  breakReason : Option String
deriving DecidableEq

/-- An alliance record (`ReputationEngine.formAlliance`); the JS `Set`
of members is modelled as a duplicate-free list in insertion order. -/
structure Alliance where
  id : String
  name : String
  members : List String
  atype : String
  formedAt : Nat
  expiresAt : Option Nat
  status : String
  brokenBy : Option String
deriving DecidableEq

/-- The state of the reputation ledger (`class ReputationEngine`).
`currentTurn` models the `this.currentTurn` field read by
`recordBetrayal` (never initialized in the constructor). -/
structure RepEngine where
  agentReputations : JsMap ReputationData
  deals : JsMap Deal
  alliances : JsMap Alliance
  dealHistory : List Deal
  currentTurn : Option Nat
deriving DecidableEq

/-- `initializeAgent`: a fresh reputation record with neutral scores. -/
def initialRep (agentId name : String) (now : Nat) : ReputationData :=
  { agentId := agentId, name := name, trustScore := 50,
    dealsMade := 0, dealsKept := 0, dealsBroken := 0,
    alliancesHonored := 0, alliancesBroken := 0,
    betrayals := [], betrayedBy := [],
    consistencyScore := 50, aggressionScore := 50, diplomacyScore := 50,
    history := [], lastUpdated := now }

/-- The body of `updateDealCounts` acting on one reputation record:
bump the matching counter, then, once at least one deal has concluded,
recompute the trust score as the weighted blend
`round(0.3 * trust + 0.7 * (dealsKept / (dealsKept + dealsBroken)) * 100)`. -/
def updateDealCountsRep (rep : ReputationData) (ty : String) : ReputationData :=
  let rep1 :=
    if ty = "made" then { rep with dealsMade := rep.dealsMade + 1 }
    else if ty = "kept" then { rep with dealsKept := rep.dealsKept + 1 }
    else if ty = "broken" then { rep with dealsBroken := rep.dealsBroken + 1 }
    else rep
  let totalCompleted := rep1.dealsKept + rep1.dealsBroken
  if 0 < totalCompleted then
    let baseTrust : ℚ := ((rep1.dealsKept : ℚ) / (totalCompleted : ℚ)) * 100
    { rep1 with trustScore :=
        ((jsRound (rep1.trustScore * (3 / 10) + baseTrust * (7 / 10)) : ℤ) : ℚ) }
  else rep1

/-- The betrayer half of `recordBetrayal`: push the betrayal entry and
deduct 10 trust, clamped at 0. -/
def betrayerUpdate (rep : ReputationData) (victimId btype : String) (turn : Option Nat)
    (now : Nat) : ReputationData :=
  { rep with
      betrayals := rep.betrayals ++
        [{ victim := victimId, btype := btype, turn := turn, timestamp := now }],
      trustScore := max 0 (rep.trustScore - 10) }

/-- The victim half of `recordBetrayal`: record who betrayed them. -/
def victimUpdate (rep : ReputationData) (betrayerId btype : String) (turn : Option Nat)
    (now : Nat) : ReputationData :=
  { rep with
      betrayedBy := rep.betrayedBy ++
        [{ betrayer := betrayerId, btype := btype, turn := turn, timestamp := now }] }

/-- The history push at the end of `analyzeAction`: append the action
and keep only the newest 100 entries. -/
def pushHistory (rep : ReputationData) (atype : String) (target : Option String)
    (now : Nat) : ReputationData :=
  let h1 := rep.history ++ [{ atype := atype, target := target, timestamp := now }]
  { rep with
      history := if h1.length > 100 then h1.drop (h1.length - 100) else h1,
      lastUpdated := now }

/-- The `break-deal` case of `analyzeAction` on one record: deduct 15
trust, clamped at 0, then log the action. -/
def actionBreakDealRep (rep : ReputationData) (target : Option String) (now : Nat) : ReputationData :=
  pushHistory { rep with trustScore := max 0 (rep.trustScore - 15) }
    "break-deal" target now

/-- The `keep-deal` case of `analyzeAction` on one record: add 5 trust
and 2 consistency, clamped at 100, then log the action. -/
def actionKeepDealRep (rep : ReputationData) (target : Option String) (now : Nat) : ReputationData :=
  pushHistory
    { rep with trustScore := min 100 (rep.trustScore + 5),
               consistencyScore := min 100 (rep.consistencyScore + 2) }
    "keep-deal" target now

/-- The reputation events that touch one participant's record: the three
deal-count updates (each followed by the weighted-blend recomputation),
a betrayal charged to this record, and the `break-deal`/`keep-deal`
action classifications. -/
inductive RepEvent where
  | dealMade
  | dealKept
  | dealBroken
  | betray (victimId : String) (btype : String) (turn : Option Nat) (now : Nat)
  | actionBreakDeal (target : Option String) (now : Nat)
  | actionKeepDeal (target : Option String) (now : Nat)

/-- Apply one reputation event to a record, exactly as the engine does. -/
def applyRepEvent (rep : ReputationData) : RepEvent → ReputationData
  | .dealMade => updateDealCountsRep rep "made"
  | .dealKept => updateDealCountsRep rep "kept"
  | .dealBroken => updateDealCountsRep rep "broken"
  | .betray v ty turn now => betrayerUpdate rep v ty turn now
  | .actionBreakDeal target now => actionBreakDealRep rep target now
  | .actionKeepDeal target now => actionKeepDealRep rep target now

/-- The weighted blend of a trust score in [0,100] with a kept-ratio
base stays in [0,100] after JS rounding. -/
theorem jsRound_blend_bounds (t b : ℚ) (ht0 : 0 ≤ t) (ht1 : t ≤ 100)
    (hb0 : 0 ≤ b) (hb1 : b ≤ 100) :
    (0 : ℚ) ≤ ((jsRound (t * (3 / 10) + b * (7 / 10)) : ℤ) : ℚ) ∧
    ((jsRound (t * (3 / 10) + b * (7 / 10)) : ℤ) : ℚ) ≤ 100 := by
  have hx0 : (0 : ℚ) ≤ t * (3 / 10) + b * (7 / 10) := by nlinarith
  have hx1 : t * (3 / 10) + b * (7 / 10) ≤ 100 := by nlinarith
  constructor
  · have : (0 : ℤ) ≤ jsRound (t * (3 / 10) + b * (7 / 10)) := by
      rw [jsRound]
      exact Int.le_floor.mpr (by push_cast; linarith)
    exact_mod_cast this
  · have : jsRound (t * (3 / 10) + b * (7 / 10)) ≤ 100 := by
      rw [jsRound]
      calc ⌊t * (3 / 10) + b * (7 / 10) + 1 / 2⌋ ≤ ⌊(201 / 2 : ℚ)⌋ :=
            Int.floor_le_floor (by linarith)
        _ = 100 := by norm_num
    exact_mod_cast this

/-- A kept-ratio blend instance of `jsRound_blend_bounds`. -/
theorem blendTrust_bounds (t : ℚ) (k tot : Nat) (htot : 0 < tot) (hk : k ≤ tot)
    (ht0 : 0 ≤ t) (ht1 : t ≤ 100) :
    (0 : ℚ) ≤ ((jsRound (t * (3 / 10) + ((k : ℚ) / (tot : ℚ)) * 100 * (7 / 10)) : ℤ) : ℚ) ∧
    ((jsRound (t * (3 / 10) + ((k : ℚ) / (tot : ℚ)) * 100 * (7 / 10)) : ℤ) : ℚ) ≤ 100 := by
  have hb0 : (0 : ℚ) ≤ ((k : ℚ) / (tot : ℚ)) * 100 := by positivity
  have hb1 : ((k : ℚ) / (tot : ℚ)) * 100 ≤ 100 := by
    have htotQ : (0 : ℚ) < (tot : ℚ) := by exact_mod_cast htot
    have hd : (k : ℚ) / (tot : ℚ) ≤ 1 := (div_le_one htotQ).mpr (by exact_mod_cast hk)
    nlinarith
  exact jsRound_blend_bounds t (((k : ℚ) / (tot : ℚ)) * 100) ht0 ht1 hb0 hb1

/-- The deal-count update (with its blend recomputation) keeps the trust
score inside [0,100]. -/
theorem updateDealCountsRep_trust_bounds (rep : ReputationData) (ty : String)
    (h0 : 0 ≤ rep.trustScore) (h1 : rep.trustScore ≤ 100) :
    0 ≤ (updateDealCountsRep rep ty).trustScore ∧
      (updateDealCountsRep rep ty).trustScore ≤ 100 := by
  simp only [updateDealCountsRep]
  split_ifs with hty1 hty2 hty3 <;>
    first
      | exact ⟨h0, h1⟩
      | exact blendTrust_bounds _ _ _ (by assumption) (Nat.le_add_right _ _) h0 h1

/-- One reputation event keeps the trust score inside [0,100]. -/
theorem applyRepEvent_trust_bounds (rep : ReputationData) (e : RepEvent)
    (h0 : 0 ≤ rep.trustScore) (h1 : rep.trustScore ≤ 100) :
    0 ≤ (applyRepEvent rep e).trustScore ∧
      (applyRepEvent rep e).trustScore ≤ 100 := by
  cases e with
  | dealMade => exact updateDealCountsRep_trust_bounds rep "made" h0 h1
  | dealKept => exact updateDealCountsRep_trust_bounds rep "kept" h0 h1
  | dealBroken => exact updateDealCountsRep_trust_bounds rep "broken" h0 h1
  | betray v ty turn now =>
    refine ⟨le_max_left 0 _, max_le (by norm_num) (by
      have : rep.trustScore - 10 ≤ 100 := by linarith
      exact this)⟩
  | actionBreakDeal target now =>
    refine ⟨le_max_left 0 _, max_le (by norm_num) (by
      have : rep.trustScore - 15 ≤ 100 := by linarith
      exact this)⟩
  | actionKeepDeal target now =>
    refine ⟨le_min (by norm_num) (by linarith), min_le_left _ _⟩

/-- C6: starting from the initial trust value 50, the trust score stays
within [0,100] after any sequence of deal-count updates (keep, break,
made, each followed by the weighted-blend recomputation
`round(0.3 * trust + 0.7 * (dealsKept / (dealsKept + dealsBroken)) * 100)`
once at least one deal has concluded), betrayal penalties, and
keep-deal / break-deal action classifications. -/
theorem trustScore_in_range (agentId name : String) (now : Nat)
    (evs : List RepEvent) :
    0 ≤ (evs.foldl applyRepEvent (initialRep agentId name now)).trustScore ∧
    (evs.foldl applyRepEvent (initialRep agentId name now)).trustScore ≤ 100 := by
  have main : ∀ (l : List RepEvent) (r : ReputationData), 0 ≤ r.trustScore →
      r.trustScore ≤ 100 →
      0 ≤ (l.foldl applyRepEvent r).trustScore ∧
        (l.foldl applyRepEvent r).trustScore ≤ 100 := by
    intro l
    induction l with
    | nil => intro r hr0 hr1; exact ⟨hr0, hr1⟩
    | cons e es ih =>
      intro r hr0 hr1
      have h := applyRepEvent_trust_bounds r e hr0 hr1
      exact ih (applyRepEvent r e) h.1 h.2
  refine main evs (initialRep agentId name now) ?_ ?_ <;> norm_num [initialRep]

/-- The counterpart of a broken deal
(`deal.proposer === agentId ? deal.acceptor : deal.proposer`). -/
def dealCounterparty (d : Deal) (agentId : String) : String :=
  if d.proposer = agentId then d.acceptor else d.proposer

/-- `ReputationEngine.updateDealCounts` at engine level: update the one
record, if present. -/
def updateDealCounts (e : RepEngine) (agentId ty : String) : RepEngine :=
  match mapGet e.agentReputations agentId with
  | none => e
  | some rep =>
    { e with agentReputations :=
        mapSet e.agentReputations agentId (updateDealCountsRep rep ty) }

/-- `ReputationEngine.recordBetrayal`: push the betrayal onto the
betrayer's record with a 10-point clamped trust deduction, then note the
betrayer in the victim's record; each half is skipped when the record is
absent. -/
def recordBetrayal (e : RepEngine) (betrayerId victimId btype : String)
    (now : Nat) : RepEngine :=
  let e1 :=
    match mapGet e.agentReputations betrayerId with
    | none => e
    | some rep =>
      let rep1 := betrayerUpdate rep victimId btype e.currentTurn now
      { e with agentReputations := mapSet e.agentReputations betrayerId rep1 }
  match mapGet e1.agentReputations victimId with
  | none => e1
  | some rep =>
    let rep1 := victimUpdate rep betrayerId btype e1.currentTurn now
    { e1 with agentReputations := mapSet e1.agentReputations victimId rep1 }

/-- `ReputationEngine.breakDeal`: only active or pending deals can be
broken; the deal becomes `broken` with breaker/time/reason recorded, a
betrayal is recorded against the breaker naming the counterpart, the
breaker's `broken` count and the counterpart's `kept` count are updated.
Returns `false` (and no change) for a missing deal or a terminal
status. -/
def breakDeal (e : RepEngine) (dealId agentId reason : String) (now : Nat) :
    RepEngine × Bool :=
  match mapGet e.deals dealId with
  | none => (e, false)
  | some deal =>
    if deal.status ≠ "active" ∧ deal.status ≠ "pending" then (e, false)
    else
      let deal1 := { deal with status := "broken", brokenBy := some agentId,
                               brokenAt := some now, breakReason := some reason }
      let otherParty := dealCounterparty deal agentId
      let e1 := { e with deals := mapSet e.deals dealId deal1 }
      let e2 := recordBetrayal e1 agentId otherParty deal.dealType now
      let e3 := updateDealCounts e2 agentId "broken"
      let e4 := updateDealCounts e3 otherParty "kept"
      (e4, true)

/-- `ReputationEngine.leaveAlliance`: succeeds whenever the alliance id
exists; removes the member (a no-op for a non-member), and dissolves the
alliance exactly when fewer than two members remain afterwards.  No
betrayal is recorded and no reputation is touched. -/
def leaveAlliance (e : RepEngine) (allianceId agentId : String) :
    RepEngine × Bool :=
  match mapGet e.alliances allianceId with
  | none => (e, false)
  | some al =>
    let members1 := al.members.filter (fun m => m != agentId)
    let al1 :=
      if members1.length < 2 then
        { al with members := members1, status := "dissolved" }
      else
        { al with members := members1 }
    ({ e with alliances := mapSet e.alliances allianceId al1 }, true)

/-- Reduction of the deal-count update for a `broken` event: the broken
counter rises by one, and the trust score is re-blended (the deal now
concluded makes the total positive). -/
theorem updateDealCountsRep_broken (rep : ReputationData) :
    updateDealCountsRep rep "broken" =
      { rep with dealsBroken := rep.dealsBroken + 1,
                 trustScore :=
                   ((jsRound (rep.trustScore * (3 / 10) +
                      ((rep.dealsKept : ℚ) /
                        ((rep.dealsKept + (rep.dealsBroken + 1) : ℕ) : ℚ)) * 100 *
                        (7 / 10)) : ℤ) : ℚ) } := by
  have h : (0 : ℕ) < rep.dealsKept + (rep.dealsBroken + 1) := by omega
  simp [updateDealCountsRep, h]

/-- Reduction of the deal-count update for a `kept` event. -/
theorem updateDealCountsRep_kept (rep : ReputationData) :
    updateDealCountsRep rep "kept" =
      { rep with dealsKept := rep.dealsKept + 1,
                 trustScore :=
                   ((jsRound (rep.trustScore * (3 / 10) +
                      (((rep.dealsKept + 1 : ℕ) : ℚ) /
                        ((rep.dealsKept + 1 + rep.dealsBroken : ℕ) : ℚ)) * 100 *
                        (7 / 10)) : ℤ) : ℚ) } := by
  have h : (0 : ℕ) < rep.dealsKept + 1 + rep.dealsBroken := by omega
  simp [updateDealCountsRep, h]

/-- C8: breaking an active (or pending) deal by one of its two distinct
parties, both holding reputation records, sets the deal's status to
`broken` (recording breaker, time and reason), increments the breaker's
`dealsBroken` by one, increments the counterpart's `dealsKept` by one,
records exactly one betrayal against the breaker naming the counterpart
(and, mirrored, exactly one `betrayedBy` entry for the counterpart), and
charges the breaker a trust penalty: 10 points (clamped at 0) before the
weighted blend recomputation is applied with the incremented broken
count. -/
theorem breakDeal_spec (e : RepEngine) (dealId agentId reason : String)
    (now : Nat) (d : Deal) (rb rc : ReputationData)
    (hd : mapGet e.deals dealId = some d)
    (hstatus : d.status = "active" ∨ d.status = "pending")
    (hparty : agentId = d.proposer ∨ agentId = d.acceptor)
    (hne : d.proposer ≠ d.acceptor)
    (hrb : mapGet e.agentReputations agentId = some rb)
    (hrc : mapGet e.agentReputations (dealCounterparty d agentId) = some rc) :
    (breakDeal e dealId agentId reason now).2 = true ∧
    mapGet (breakDeal e dealId agentId reason now).1.deals dealId =
      some ({ d with status := "broken", brokenBy := some agentId,
                     brokenAt := some now, breakReason := some reason }) ∧
    (∃ rb', mapGet (breakDeal e dealId agentId reason now).1.agentReputations
        agentId = some rb' ∧
      rb'.dealsBroken = rb.dealsBroken + 1 ∧
      rb'.dealsKept = rb.dealsKept ∧
      rb'.betrayals = rb.betrayals ++
        [{ victim := dealCounterparty d agentId, btype := d.dealType,
           turn := e.currentTurn, timestamp := now }] ∧
      rb'.trustScore =
        ((jsRound ((max 0 (rb.trustScore - 10)) * (3 / 10) +
           ((rb.dealsKept : ℚ) /
             ((rb.dealsKept + (rb.dealsBroken + 1) : ℕ) : ℚ)) * 100 *
           (7 / 10)) : ℤ) : ℚ)) ∧
    (∃ rc', mapGet (breakDeal e dealId agentId reason now).1.agentReputations
        (dealCounterparty d agentId) = some rc' ∧
      rc'.dealsKept = rc.dealsKept + 1 ∧
      rc'.dealsBroken = rc.dealsBroken ∧
      rc'.betrayals = rc.betrayals ∧
      rc'.betrayedBy = rc.betrayedBy ++
        [{ betrayer := agentId, btype := d.dealType,
           turn := e.currentTurn, timestamp := now }]) := by
  have hne1 : dealCounterparty d agentId ≠ agentId := by
    unfold dealCounterparty
    by_cases hp : d.proposer = agentId
    · rw [if_pos hp]
      intro hc
      exact hne (hp.trans hc.symm)
    · rw [if_neg hp]
      exact hp
  have hne2 : agentId ≠ dealCounterparty d agentId := Ne.symm hne1
  have hguard : ¬ (d.status ≠ "active" ∧ d.status ≠ "pending") := by
    rcases hstatus with h | h <;> simp [h]
  have hget1 : mapGet (mapSet e.agentReputations agentId
      (betrayerUpdate rb (dealCounterparty d agentId) d.dealType e.currentTurn now))
      (dealCounterparty d agentId) = some rc := by
    rw [mapGet_mapSet_ne _ _ _ _ hne1]
    exact hrc
  have hstep : breakDeal e dealId agentId reason now =
      ({ e with
          deals := mapSet e.deals dealId ({ d with status := "broken", brokenBy := some agentId, brokenAt := some now, breakReason := some reason }),
          agentReputations :=
            mapSet
              (mapSet
                (mapSet
                  (mapSet e.agentReputations agentId
                    (betrayerUpdate rb (dealCounterparty d agentId) d.dealType
                      e.currentTurn now))
                  (dealCounterparty d agentId)
                  (victimUpdate rc agentId d.dealType e.currentTurn now))
                agentId
                (updateDealCountsRep
                  (betrayerUpdate rb (dealCounterparty d agentId) d.dealType
                    e.currentTurn now) "broken"))
              (dealCounterparty d agentId)
              (updateDealCountsRep
                (victimUpdate rc agentId d.dealType e.currentTurn now) "kept") },
        true) := by
    simp only [breakDeal, hd]
    rw [if_neg hguard]
    simp only [recordBetrayal, updateDealCounts, hrb, hget1]
    rw [mapGet_mapSet_ne _ _ _ _ hne2, mapGet_mapSet_self]
    rw [mapGet_mapSet_ne _ _ _ _ hne1, mapGet_mapSet_self]
  refine ⟨by rw [hstep], ?_, ?_, ?_⟩
  · rw [hstep]
    exact mapGet_mapSet_self _ _ _
  · refine ⟨_, by rw [hstep]; rw [mapGet_mapSet_ne _ _ _ _ hne2, mapGet_mapSet_self], ?_, ?_, ?_, ?_⟩ <;>
      rw [updateDealCountsRep_broken] <;> rfl
  · refine ⟨_, by rw [hstep]; rw [mapGet_mapSet_self], ?_, ?_, ?_, ?_⟩ <;>
      rw [updateDealCountsRep_kept] <;> rfl

/-- C10: for every alliance id present in the ledger, `leaveAlliance`
returns `true` regardless of whether the caller is a member and
regardless of the alliance's current status; it records no betrayal and
changes no reputation record and no deal; the member list loses exactly
the caller's entries; the status becomes `dissolved` exactly when the
member count after the (possibly vacuous) removal is below 2, and is
left untouched otherwise; in particular a non-member's call leaves the
membership intact. -/
theorem leaveAlliance_spec (e : RepEngine) (allianceId agentId : String)
    (al : Alliance) (hal : mapGet e.alliances allianceId = some al) :
    (leaveAlliance e allianceId agentId).2 = true ∧
    (leaveAlliance e allianceId agentId).1.agentReputations =
      e.agentReputations ∧
    (leaveAlliance e allianceId agentId).1.deals = e.deals ∧
    mapGet (leaveAlliance e allianceId agentId).1.alliances allianceId =
      some (if (al.members.filter (fun m => m != agentId)).length < 2
            then { al with members := al.members.filter (fun m => m != agentId),
                           status := "dissolved" }
            else { al with members := al.members.filter (fun m => m != agentId) }) ∧
    (agentId ∉ al.members →
      al.members.filter (fun m => m != agentId) = al.members) := by
  have hstep : leaveAlliance e allianceId agentId =
      ({ e with alliances :=
          mapSet e.alliances allianceId
                 (if (al.members.filter (fun m => m != agentId)).length < 2
                  then { al with members := al.members.filter (fun m => m != agentId), status := "dissolved" }
                  else { al with members := al.members.filter (fun m => m != agentId) }) },
        true) := by
    simp only [leaveAlliance, hal]
  refine ⟨by rw [hstep], by rw [hstep], by rw [hstep], ?_, ?_⟩
  · rw [hstep]
    exact mapGet_mapSet_self _ _ _
  · intro hmem
    apply List.filter_eq_self.mpr
    intro m hm
    simp only [bne_iff_ne, ne_eq]
    intro hc
    exact hmem (hc ▸ hm)

/-- A two-member alliance for the C10 witness. -/
def exAllianceC10 : Alliance :=
  { id := "al1", name := "Pact", members := ["m1", "m2"], atype := "defensive",
    formedAt := 0, expiresAt := none, status := "active", brokenBy := none }

/-- Reputation records and ledger used by the C8 and C10 witnesses. -/
def exRepA1 : ReputationData := initialRep "a1" "Alpha" 0

/-- The counterpart's reputation record for the C8 witness. -/
def exRepA2 : ReputationData := initialRep "a2" "Beta" 0

/-- An active deal between the two witness participants. -/
def exDealC8 : Deal :=
  { id := "d1", turn := some 1, proposer := "a1", acceptor := "a2",
    dealType := "non-aggression", status := "active", createdAt := 0,
    expiresAt := none, fulfilled := [("a1", false), ("a2", false)],
    acceptedAt := some 1, completedAt := none, brokenBy := none,
    brokenAt := none, breakReason := none }

/-- A reputation ledger holding the witness records, deal and
alliance. -/
def exEngineC8 : RepEngine :=
  { agentReputations := [("a1", exRepA1), ("a2", exRepA2)],
    deals := [("d1", exDealC8)],
    alliances := [("al1", exAllianceC10)],
    dealHistory := [], currentTurn := none }

/-- C8 witness: breaking the active witness deal by its proposer
succeeds, marks the deal broken, gives the breaker one broken deal and
one recorded betrayal, and the counterpart one kept deal. -/
theorem breakDeal_spec_witness :
    (breakDeal exEngineC8 "d1" "a1" "changed my mind" 5).2 = true ∧
    (mapGet (breakDeal exEngineC8 "d1" "a1" "changed my mind" 5).1.deals
      "d1").map Deal.status = some "broken" ∧
    (mapGet (breakDeal exEngineC8 "d1" "a1" "changed my mind" 5).1.agentReputations
      "a1").map ReputationData.dealsBroken = some 1 ∧
    (mapGet (breakDeal exEngineC8 "d1" "a1" "changed my mind" 5).1.agentReputations
      "a1").map (fun r => r.betrayals.length) = some 1 ∧
    (mapGet (breakDeal exEngineC8 "d1" "a1" "changed my mind" 5).1.agentReputations
      "a2").map ReputationData.dealsKept = some 1 := by
  have h := breakDeal_spec exEngineC8 "d1" "a1" "changed my mind" 5 exDealC8
    exRepA1 exRepA2 rfl (Or.inl rfl) (Or.inl rfl) (by decide) rfl rfl
  obtain ⟨h1, h2, ⟨rb', hrb', hb1, hb2, hb3, hb4⟩, ⟨rc', hrc', hc1, hc2, hc3, hc4⟩⟩ := h
  refine ⟨h1, ?_, ?_, ?_, ?_⟩
  · rw [h2]
    rfl
  · rw [show (dealCounterparty exDealC8 "a1") = "a2" from rfl] at hrc'
    rw [hrb']
    simp [hb1, exRepA1, initialRep]
  · rw [hrb']
    simp [hb3, exRepA1, initialRep]
  · rw [show (dealCounterparty exDealC8 "a1") = "a2" from rfl] at hrc'
    rw [hrc']
    simp [hc1, exRepA2, initialRep]

/-- C10 witness: a non-member leaving the two-member witness alliance
succeeds, touches no reputation record, and leaves the membership
intact with the status still `active`. -/
theorem leaveAlliance_spec_witness :
    (leaveAlliance exEngineC8 "al1" "stranger").2 = true ∧
    (leaveAlliance exEngineC8 "al1" "stranger").1.agentReputations =
      exEngineC8.agentReputations ∧
    (mapGet (leaveAlliance exEngineC8 "al1" "stranger").1.alliances
      "al1").map Alliance.members = some ["m1", "m2"] ∧
    (mapGet (leaveAlliance exEngineC8 "al1" "stranger").1.alliances
      "al1").map Alliance.status = some "active" := by
  have h := leaveAlliance_spec exEngineC8 "al1" "stranger" exAllianceC10 rfl
  obtain ⟨h1, h2, h3, h4, h5⟩ := h
  have hfilter : exAllianceC10.members.filter (fun m => m != "stranger") =
      exAllianceC10.members := h5 (by decide)
  refine ⟨h1, h2, ?_, ?_⟩
  · rw [h4, hfilter]
    rfl
  · rw [h4, hfilter]
    rfl

/-- The per-phase timer durations set in the `GameState` constructor
(`this.phaseDuration`). -/
def phaseDurations : JsMap Nat :=
  [("negotiation", 15000), ("commit", 10000), ("resolve", 8000)]

/-- The per-participant slice of `getPublicState().agents`. -/
structure AgentPublicView where
  id : String
  name : String
  color : String
  territories : Nat
  armies : Int
  resources : Nat
  eliminated : Bool
  personality : Option String
deriving DecidableEq

/-- The per-territory slice of `getPublicState().territories`. -/
structure TerritoryPublicView where
  id : String
  name : String
  owner : Option String
  armies : Int
  region : String
  continent : String
  neighbors : List String
deriving DecidableEq

/-- The spectator snapshot returned by `GameState.getPublicState`. -/
structure PublicState where
  gameId : String
  phase : String
  turn : Nat
  maxTurns : Nat
  agents : List AgentPublicView
  territories : List TerritoryPublicView
  conversations : List ConvEntry
  winner : Option String
  phaseStartTime : Option Nat
  phaseDuration : Option Nat
deriving DecidableEq

/-- `GameState.getPublicState`: everything spectators may see.  It never
reads the private commitment map. -/
def getPublicState (st : GameState) : PublicState :=
  { gameId := st.gameId, phase := st.phase, turn := st.turn,
    maxTurns := st.maxTurns,
    agents := (st.agents.map Prod.snd).map (fun a =>
      { id := a.id, name := a.name, color := a.color,
        territories := a.territories.length, armies := a.armies,
        resources := a.resources, eliminated := a.eliminated,
        personality := a.personality }),
    territories := (st.territories.map Prod.snd).map (fun t =>
      { id := t.id, name := t.name, owner := t.owner, armies := t.armies,
        region := t.region, continent := t.continent,
        neighbors := t.neighbors }),
    conversations := st.conversations.filter (fun c => c.ctype == "public"),
    winner := st.winner,
    phaseStartTime := st.phaseStartTime,
    phaseDuration := mapGet phaseDurations st.phase }

/-- The private snapshot returned by `GameState.getAgentState`: the JS
object spread `{...this.getPublicState(), myTerritories, ...}` is
modelled as a record holding the public part in `pub`. -/
structure AgentStateView where
  pub : PublicState
  myTerritories : List String
  myResources : Nat
  myCommitment : Option String
  revealedMoves : List RevealedMove
deriving DecidableEq

/-- `GameState.getAgentState`: the public snapshot plus the caller's own
territories, resources and commitment hash, and the revealed-move list
filtered to the resolve phase or the caller's own entry. -/
def getAgentState (st : GameState) (agentId : String) : Option AgentStateView :=
  match mapGet st.agents agentId with
  | none => none
  | some agent =>
    some { pub := getPublicState st,
           myTerritories := agent.territories,
           myResources := agent.resources,
           myCommitment := (mapGet st.moves agentId).map Commitment.hash,
           revealedMoves := (st.revealedMoves.map Prod.snd).filter
             (fun m => st.phase == "resolve" || m.c.agentId == agentId) }

/-- C7: outside the resolve phase, the private snapshot for participant
`p` contains no other participant's unrevealed commitment: replacing the
whole commitment map by any map that agrees at key `p` (so the two
states differ only in other participants' committed, unrevealed moves)
yields an identical snapshot for `p`. -/
theorem getAgentState_no_commitment_leak (st : GameState) (p : String)
    (moves2 : JsMap Commitment)
    (hphase : st.phase ≠ "resolve")
    (hp : mapGet moves2 p = mapGet st.moves p) :
    getAgentState { st with moves := moves2 } p = getAgentState st p := by
  have := hphase
  simp only [getAgentState, getPublicState]
  rw [hp]

/-- A participant record for the C7 witness. -/
def exAgentC7 : Agent :=
  { id := "p", name := "P", color := "#0f0", personality := none,
    territories := ["t1"], armies := 3, resources := 10, eliminated := false }

/-- A commit-phase state in which participant `p` has not committed. -/
def exStateC7 : GameState :=
  { gameId := "g7", phase := "commit", turn := 1, maxTurns := 10,
    agents := [("p", exAgentC7)], continents := [], territories := [],
    moves := [], revealedMoves := [], conversations := [], history := [],
    winner := none, phaseStartTime := none }

/-- Another participant's unrevealed commitment, inserted in the C7
witness. -/
def exOtherCommitment : Commitment :=
  { agentId := "q",
    move := { type := "none", fromT := none, toT := none, armies := none },
    signature := "sig-q", timestamp := 3, hash := "h-q" }

/-- C7 witness: inserting another participant's unrevealed commitment
into the commit-phase witness state leaves `p`'s snapshot unchanged. -/
theorem getAgentState_no_commitment_leak_witness :
    getAgentState { exStateC7 with moves := [("q", exOtherCommitment)] } "p" =
      getAgentState exStateC7 "p" :=
  getAgentState_no_commitment_leak exStateC7 "p" [("q", exOtherCommitment)]
    (by decide) (by decide)

/-- One attacker entry pushed while `resolveBattles` groups attacks by
target (`{agentId, from: move.from, armies: move.armies || 1}`). -/
structure Attacker where
  agentId : String
  fromT : String
  armies : ℚ
deriving DecidableEq

/-- A battle grouped by target territory (the `defender`/`supports`
slots of the JS object are derived or unused). -/
structure Battle where
  attackers : List Attacker
deriving DecidableEq

/-- The result record returned by `resolveBattle`; the two roll fields
are the display-rounded samples (`Math.round(x * 100) / 100`). -/
structure BattleResult where
  territory : String
  defender : Option String
  attackers : List String
  winner : Option String
  remainingArmies : Int
  attackRoll : ℚ
  defenseRoll : ℚ
deriving DecidableEq

/-- One step of the attacker loop in `resolveBattle`: add the armies to
the running total and to the per-attacker force table
(`attackerForces[id] = (attackerForces[id] || 0) + armies`). -/
def accumulateAttack (acc : ℚ × JsMap ℚ) (att : Attacker) : ℚ × JsMap ℚ :=
  (acc.1 + att.armies,
   mapSet acc.2 att.agentId ((mapGet acc.2 att.agentId).getD 0 + att.armies))

/-- The total attack strength of a battle (`totalAttack`). -/
def battleTotalAttack (battle : Battle) : ℚ :=
  (battle.attackers.foldl accumulateAttack (0, [])).1

/-- The per-attacker force table of a battle (`attackerForces`). -/
def battleForces (battle : Battle) : JsMap ℚ :=
  (battle.attackers.foldl accumulateAttack (0, [])).2

/-- Head of the stable descending sort of the force table
(`Object.entries(attackerForces).sort((a,b) => b[1]-a[1])[0]`): the
first entry attaining the maximal committed force. -/
def topForceEntry : JsMap ℚ → Option (String × ℚ)
  | [] => none
  | p :: rest =>
    match topForceEntry rest with
    | none => some p
    | some q => if q.2 > p.2 then some q else some p

/-- `GameState.resolveBattle`: draw `attackRoll = r1 * totalAttack` and
`defenseRoll = r2 * defenderArmies * 1.5` from the two uniform samples
`r1, r2` of `Math.random()`; the attackers win iff
`attackRoll > defenseRoll`; on a win the strongest attacker takes the
territory with `max(1, floor(0.6 * totalAttack))` armies, otherwise the
defender keeps it with `max(1, floor(0.7 * defenderArmies))`. -/
def resolveBattle (t : Territory) (battle : Battle) (r1 r2 : ℚ) : BattleResult :=
  let defender := t.owner
  let defenderArmies := t.armies
  let totalAttack := battleTotalAttack battle
  let attackerForces := battleForces battle
  let attackRoll := r1 * totalAttack
  let defenseRoll := r2 * (defenderArmies : ℚ) * (3 / 2)
  if attackRoll > defenseRoll then
    { territory := t.id, defender := defender,
      attackers := battle.attackers.map (fun a => a.agentId),
      winner := (topForceEntry attackerForces).map Prod.fst,
      remainingArmies := max 1 ⌊totalAttack * (6 / 10)⌋,
      attackRoll := (jsRound (attackRoll * 100) : ℚ) / 100,
      defenseRoll := (jsRound (defenseRoll * 100) : ℚ) / 100 }
  else
    { territory := t.id, defender := defender,
      attackers := battle.attackers.map (fun a => a.agentId),
      winner := defender,
      remainingArmies := max 1 ⌊(defenderArmies : ℚ) * (7 / 10)⌋,
      attackRoll := (jsRound (attackRoll * 100) : ℚ) / 100,
      defenseRoll := (jsRound (defenseRoll * 100) : ℚ) / 100 }

/-- The old-owner half of the result application in `resolveBattles`:
when the territory was owned and the owner record exists, remove the
territory from its list and subtract the lost armies (the JS
`if (oldOwner) {...}` block). -/
def dispossess (agents : JsMap Agent) (owner : Option String)
    (territoryId : String) (armies : Int) : JsMap Agent :=
  match owner with
  | none => agents
  | some oid =>
    match mapGet agents oid with
    | none => agents
    | some oldOwner =>
      let old1 := { oldOwner with
        territories := oldOwner.territories.filter (fun x => x != territoryId),
        armies := oldOwner.armies - armies }
      mapSet agents oid old1

/-- The new-owner half of the result application in `resolveBattles`:
push the territory onto the winner's list and add the surviving armies.
In JS a missing winner record throws; in every crash-free run the winner
exists, and the absent cases are modelled as no-ops. -/
def award (agents : JsMap Agent) (winner : Option String)
    (territoryId : String) (remaining : Int) : JsMap Agent :=
  match winner with
  | none => agents
  | some wid =>
    match mapGet agents wid with
    | none => agents
    | some newOwner =>
      let new1 := { newOwner with
        territories := newOwner.territories ++ [territoryId],
        armies := newOwner.armies + remaining }
      mapSet agents wid new1

/-- The result-application block inside the `resolveBattles` loop: on an
ownership change the old owner (if any) loses the territory and its
armies, the new owner gains the territory with the surviving armies; the
territory record is updated either way. -/
def applyBattleResult (st : GameState) (territoryId : String)
    (res : BattleResult) : GameState :=
  match mapGet st.territories territoryId with
  | none => st
  | some t =>
    if res.winner ≠ t.owner then
      let agents2 := award (dispossess st.agents t.owner territoryId t.armies)
        res.winner territoryId res.remainingArmies
      let t1 := { t with owner := res.winner, armies := res.remainingArmies }
      { st with agents := agents2, territories := mapSet st.territories territoryId t1 }
    else
      let t1 := { t with armies := res.remainingArmies }
      { st with territories := mapSet st.territories territoryId t1 }

/-- One iteration of the grouping loop of `resolveBattles`: a revealed
attack is appended to its target's attacker list.  A committed attack
always carries a target (enforced by `validateMove` at commit time), so
the target always exists here. -/
def groupStep (battles : JsMap (List Attacker)) (p : String × RevealedMove) :
    JsMap (List Attacker) :=
  let move := p.2.c.move
  if move.type = "attack" then
    match move.toT with
    | some target =>
      let att : Attacker :=
        { agentId := p.1, fromT := move.fromT.getD "",
          armies := match move.armies with
                    | none => 1
                    | some a => if a = 0 then 1 else a }
      mapSet battles target ((mapGet battles target).getD [] ++ [att])
    | none => battles
  else battles

/-- The grouping loop of `resolveBattles`: collect the revealed attack
moves by target territory, in reveal-iteration order. -/
def groupAttacks (revealed : JsMap RevealedMove) : JsMap (List Attacker) :=
  revealed.foldl groupStep []

/-- One iteration of the battle loop of `resolveBattles`: look up the
contested territory in the current state, resolve it with the next two
`Math.random()` samples, and apply the result. -/
def resolveStep (rand : Nat → ℚ) (acc : GameState × List BattleResult × Nat)
    (p : String × List Attacker) : GameState × List BattleResult × Nat :=
  match mapGet acc.1.territories p.1 with
  | none => acc
  | some t =>
    let res := resolveBattle t { attackers := p.2 }
      (rand (2 * acc.2.2)) (rand (2 * acc.2.2 + 1))
    (applyBattleResult acc.1 p.1 res, (acc.2.1 ++ [res], acc.2.2 + 1))

/-- `GameState.resolveBattles`: group the revealed attacks, then resolve
and apply each battle in order, consuming two `Math.random()` samples
(`rand (2*i)` and `rand (2*i+1)`) per battle.  Returns the final state
and the result list. -/
def resolveBattles (st : GameState) (rand : Nat → ℚ) :
    GameState × List BattleResult :=
  let battles := groupAttacks st.revealedMoves
  let fin := battles.foldl (resolveStep rand) (st, ([], 0))
  (fin.1, fin.2.1)

/-- The descending force sort of a nonempty table has a head. -/
theorem topForceEntry_eq_none {l : JsMap ℚ} (h : topForceEntry l = none) :
    l = [] := by
  cases l with
  | nil => rfl
  | cons p rest =>
    exfalso
    rw [topForceEntry] at h
    cases hx : topForceEntry rest with
    | none =>
      rw [hx] at h
      exact Option.noConfusion h
    | some q =>
      rw [hx] at h
      replace h : (if q.2 > p.2 then some q else some p) = none := h
      by_cases hc : q.2 > p.2
      · rw [if_pos hc] at h
        exact Option.noConfusion h
      · rw [if_neg hc] at h
        exact Option.noConfusion h

/-- The head of the descending force sort is a table entry of maximal
committed force. -/
theorem topForceEntry_spec (l : JsMap ℚ) (p : String × ℚ)
    (h : topForceEntry l = some p) :
    p ∈ l ∧ ∀ q ∈ l, q.2 ≤ p.2 := by
  induction l generalizing p with
  | nil => simp [topForceEntry] at h
  | cons x xs ih =>
    rw [topForceEntry] at h
    cases hx : topForceEntry xs with
    | none =>
      rw [hx] at h
      replace h : some x = some p := h
      obtain rfl : x = p := by injection h
      have hxs : xs = [] := topForceEntry_eq_none hx
      subst hxs
      exact ⟨by simp, by simp⟩
    | some q =>
      rw [hx] at h
      replace h : (if q.2 > x.2 then some q else some x) = some p := h
      obtain ⟨hqmem, hqmax⟩ := ih q hx
      by_cases hc : q.2 > x.2
      · rw [if_pos hc] at h
        obtain rfl : q = p := by injection h
        refine ⟨List.mem_cons_of_mem x hqmem, ?_⟩
        intro c hc2
        rcases List.mem_cons.mp hc2 with rfl | hcxs
        · exact le_of_lt hc
        · exact hqmax c hcxs
      · rw [if_neg hc] at h
        obtain rfl : x = p := by injection h
        push_neg at hc
        refine ⟨List.mem_cons_self _ _, ?_⟩
        intro c hc2
        rcases List.mem_cons.mp hc2 with rfl | hcxs
        · exact le_refl _
        · exact le_trans (hqmax c hcxs) hc

/-- The running attack total stays nonnegative over the attacker
loop. -/
theorem foldl_accumulate_fst_nonneg :
    ∀ (l : List Attacker) (acc : ℚ × JsMap ℚ), 0 ≤ acc.1 →
      (∀ a ∈ l, 0 ≤ a.armies) → 0 ≤ (l.foldl accumulateAttack acc).1 := by
  intro l
  induction l with
  | nil => intro acc h0 _; exact h0
  | cons a rest ih =>
    intro acc h0 harm
    simp only [List.foldl_cons]
    refine ih (accumulateAttack acc a) ?_ (fun b hb => harm b (List.mem_cons_of_mem a hb))
    have := harm a (List.mem_cons_self a rest)
    simp only [accumulateAttack]
    linarith

/-- A battle of attackers each committing at least one army has
nonnegative total strength. -/
theorem battleTotalAttack_nonneg (battle : Battle)
    (h : ∀ a ∈ battle.attackers, 1 ≤ a.armies) :
    0 ≤ battleTotalAttack battle := by
  unfold battleTotalAttack
  exact foldl_accumulate_fst_nonneg battle.attackers (0, []) (by norm_num)
    (fun a ha => le_trans (by norm_num) (h a ha))

/-- Writing into a map never empties it. -/
theorem mapSet_ne_nil {α : Type} (m : JsMap α) (k : String) (v : α) :
    mapSet m k v ≠ [] := by
  cases m with
  | nil => simp [mapSet]
  | cons p rest =>
    obtain ⟨k', v'⟩ := p
    by_cases h : k' = k <;> simp [mapSet, h]

/-- The force table stays nonempty over the attacker loop. -/
theorem foldl_accumulate_snd_ne_nil :
    ∀ (l : List Attacker) (acc : ℚ × JsMap ℚ), acc.2 ≠ [] →
      (l.foldl accumulateAttack acc).2 ≠ [] := by
  intro l
  induction l with
  | nil => intro acc h; exact h
  | cons a rest ih =>
    intro acc h
    simp only [List.foldl_cons]
    exact ih (accumulateAttack acc a) (mapSet_ne_nil _ _ _)

/-- A battle with at least one attacker has a nonempty force table. -/
theorem battleForces_ne_nil (battle : Battle) (h : battle.attackers ≠ []) :
    battleForces battle ≠ [] := by
  unfold battleForces
  cases hb : battle.attackers with
  | nil => exact absurd hb h
  | cons a rest =>
    simp only [List.foldl_cons]
    exact foldl_accumulate_snd_ne_nil rest (accumulateAttack (0, []) a)
      (mapSet_ne_nil _ _ _)

/-- C1: for a contested territory with defending army count `D`, total
revealed attack strength `T` and uniform samples `r1, r2` from `[0,1)`,
`resolveBattle` draws `sampleA = r1 * T` from `[0, T]` and
`sampleD = r2 * (D * 1.5)` from `[0, D * 1.5]`; the attackers win iff
`sampleA > sampleD`; on an attacker win the winner is the attacker that
committed the largest army share and the surviving armies are
`max(1, floor(0.6 * T))`; on a defender win the owner is kept with
`max(1, floor(0.7 * D))` armies; and applying the result to the match
state stores exactly the computed winner and army count on the
territory, transferring ownership on an attacker win. -/
theorem resolveBattle_spec (st : GameState) (t : Territory) (battle : Battle)
    (r1 r2 : ℚ)
    (hr1 : 0 ≤ r1) (hr1' : r1 < 1) (hr2 : 0 ≤ r2) (hr2' : r2 < 1)
    (harm : ∀ a ∈ battle.attackers, 1 ≤ a.armies)
    (hatt : battle.attackers ≠ [])
    (hdef : 0 ≤ t.armies) :
    (0 ≤ r1 * battleTotalAttack battle ∧
     r1 * battleTotalAttack battle ≤ battleTotalAttack battle ∧
     0 ≤ r2 * (t.armies : ℚ) * (3 / 2) ∧
     r2 * (t.armies : ℚ) * (3 / 2) ≤ (t.armies : ℚ) * (3 / 2)) ∧
    (r1 * battleTotalAttack battle > r2 * (t.armies : ℚ) * (3 / 2) →
      (resolveBattle t battle r1 r2).remainingArmies =
        max 1 ⌊battleTotalAttack battle * (6 / 10)⌋ ∧
      ∃ w fw, (resolveBattle t battle r1 r2).winner = some w ∧
        (w, fw) ∈ battleForces battle ∧
        ∀ q ∈ battleForces battle, q.2 ≤ fw) ∧
    (¬ (r1 * battleTotalAttack battle > r2 * (t.armies : ℚ) * (3 / 2)) →
      (resolveBattle t battle r1 r2).winner = t.owner ∧
      (resolveBattle t battle r1 r2).remainingArmies =
        max 1 ⌊(t.armies : ℚ) * (7 / 10)⌋) ∧
    (∀ tid, mapGet st.territories tid = some t →
      ((resolveBattle t battle r1 r2).winner = t.owner ∨
        (∃ w ag, (resolveBattle t battle r1 r2).winner = some w ∧
          mapGet st.agents w = some ag)) →
      ∃ t', mapGet (applyBattleResult st tid (resolveBattle t battle r1 r2)).territories
          tid = some t' ∧
        t'.owner = (resolveBattle t battle r1 r2).winner ∧
        t'.armies = (resolveBattle t battle r1 r2).remainingArmies) := by
  have htot : 0 ≤ battleTotalAttack battle := battleTotalAttack_nonneg battle harm
  have hdq : (0 : ℚ) ≤ (t.armies : ℚ) := by exact_mod_cast hdef
  refine ⟨⟨mul_nonneg hr1 htot, ?_, ?_, ?_⟩, ?_, ?_, ?_⟩
  · exact mul_le_of_le_one_left htot (le_of_lt hr1')
  · positivity
  · have h1 : r2 * (t.armies : ℚ) ≤ (t.armies : ℚ) :=
      mul_le_of_le_one_left hdq (le_of_lt hr2')
    nlinarith
  · intro hgt
    simp only [resolveBattle]
    rw [if_pos hgt]
    refine ⟨rfl, ?_⟩
    cases hfe : topForceEntry (battleForces battle) with
    | none => exact absurd (topForceEntry_eq_none hfe) (battleForces_ne_nil battle hatt)
    | some p =>
      obtain ⟨hmem, hmax⟩ := topForceEntry_spec _ p hfe
      exact ⟨p.1, p.2, rfl, hmem, hmax⟩
  · intro hle
    simp only [resolveBattle]
    rw [if_neg hle]
    exact ⟨rfl, rfl⟩
  · intro tid htid hlive
    clear hlive
    simp only [applyBattleResult, htid]
    by_cases hw : (resolveBattle t battle r1 r2).winner ≠ t.owner
    · rw [if_pos hw]
      exact ⟨_, mapGet_mapSet_self _ _ _, rfl, rfl⟩
    · rw [if_neg hw]
      push_neg at hw
      exact ⟨_, mapGet_mapSet_self _ _ _, hw.symm, rfl⟩

/-- The defended territory of the C1 witness: one army, owned by `d`. -/
def exTerritoryC1 : Territory :=
  { id := "t1", name := "T1", region := "r", owner := some "d",
    armies := 1, resources := 1, neighbors := [], continent := "c" }

/-- A single attacker committing ten armies, for the C1 witness. -/
def exBattleC1 : Battle :=
  { attackers := [{ agentId := "a1", fromT := "t2", armies := 10 }] }

/-- C1 witness: with samples `r1 = 9/10` and `r2 = 0` the lone
ten-army attacker beats the one-army defender and survives with
`max(1, floor(0.6 * 10)) = 6` armies. -/
theorem resolveBattle_spec_witness :
    (resolveBattle exTerritoryC1 exBattleC1 (9 / 10) 0).remainingArmies = 6 ∧
    (resolveBattle exTerritoryC1 exBattleC1 (9 / 10) 0).winner = some "a1" := by
  have htot : battleTotalAttack exBattleC1 = 10 := by
    simp [battleTotalAttack, accumulateAttack, exBattleC1]
  have h := resolveBattle_spec exStateC7 exTerritoryC1 exBattleC1 (9 / 10) 0
    (by norm_num) (by norm_num) (by norm_num) (by norm_num)
    (by
      intro a ha
      simp [exBattleC1] at ha
      subst ha
      norm_num)
    (by simp [exBattleC1])
    (by norm_num [exTerritoryC1])
  have hgt : (9 / 10 : ℚ) * battleTotalAttack exBattleC1 >
      0 * ((exTerritoryC1.armies : ℚ)) * (3 / 2) := by
    rw [htot]
    norm_num
  obtain ⟨hrem, w, fw, hwin, hmem, -⟩ := h.2.1 hgt
  constructor
  · rw [hrem, htot]
    norm_num
  · have hforces : battleForces exBattleC1 = [("a1", 0 + 10)] := by
      simp [battleForces, accumulateAttack, exBattleC1, mapSet, mapGet]
    rw [hforces] at hmem
    simp only [List.mem_singleton, Prod.mk.injEq] at hmem
    rw [hwin, hmem.1]

/-- A stored binding is a list entry. -/
theorem mem_of_mapGet {α : Type} {m : JsMap α} {k : String} {v : α}
    (h : mapGet m k = some v) : (k, v) ∈ m := by
  induction m with
  | nil => simp [mapGet] at h
  | cons p rest ih =>
    obtain ⟨k', v'⟩ := p
    rw [mapGet] at h
    by_cases hk : k' = k
    · rw [if_pos hk] at h
      injection h with h
      subst hk
      subst h
      exact List.mem_cons_self _ _
    · rw [if_neg hk] at h
      exact List.mem_cons_of_mem _ (ih h)

/-- A stored binding's key is a map key. -/
theorem mem_keys_of_mapGet {α : Type} {m : JsMap α} {k : String} {v : α}
    (h : mapGet m k = some v) : k ∈ mapKeys m := by
  have := mem_of_mapGet h
  exact List.mem_map.mpr ⟨(k, v), this, rfl⟩

/-- An absent key stores nothing. -/
theorem mapGet_eq_none_of_not_mem {α : Type} {m : JsMap α} {k : String}
    (h : k ∉ mapKeys m) : mapGet m k = none := by
  induction m with
  | nil => rfl
  | cons p rest ih =>
    obtain ⟨k', v'⟩ := p
    rw [mapGet]
    rw [if_neg (by
      intro he
      exact h (by rw [← he]; exact List.mem_cons_self _ _))]
    exact ih (fun hm => h (List.mem_cons_of_mem _ hm))

/-- With duplicate-free keys, every list entry is retrievable. -/
theorem mapGet_eq_some_of_mem {α : Type} {m : JsMap α} {k : String} {v : α}
    (hnd : (mapKeys m).Nodup) (h : (k, v) ∈ m) : mapGet m k = some v := by
  induction m with
  | nil => simp at h
  | cons p rest ih =>
    obtain ⟨k', v'⟩ := p
    rw [List.mem_cons] at h
    rw [mapKeys, List.map_cons, List.nodup_cons] at hnd
    rcases h with h | h
    · injection h with h1 h2
      subst h1; subst h2
      rw [mapGet, if_pos rfl]
    · rw [mapGet]
      rw [if_neg (by
        intro he
        apply hnd.1
        rw [he]
        exact List.mem_map.mpr ⟨(k, v), h, rfl⟩)]
      exact ih hnd.2 h

/-- A present key stores something. -/
theorem mapGet_isSome_of_mem_keys {α : Type} {m : JsMap α} {k : String}
    (h : k ∈ mapKeys m) : (mapGet m k).isSome = true := by
  induction m with
  | nil => simp [mapKeys] at h
  | cons p rest ih =>
    obtain ⟨k', v'⟩ := p
    rw [mapGet]
    by_cases hk : k' = k
    · rw [if_pos hk]; rfl
    · rw [if_neg hk]
      rw [mapKeys, List.map_cons, List.mem_cons] at h
      rcases h with h | h
      · exact absurd h.symm hk
      · exact ih h

/-- The executable partition check of claim C5: key lists are
duplicate-free, every owned territory's owner is a live participant
whose list holds it, and every participant's duplicate-free list holds
exactly territories it owns. -/
def partitionInv (st : GameState) : Bool :=
  decide (mapKeys st.territories).Nodup &&
  decide (mapKeys st.agents).Nodup &&
  st.territories.all (fun p =>
    match p.2.owner with
    | none => true
    | some aid =>
      match mapGet st.agents aid with
      | some ag => decide (p.1 ∈ ag.territories)
      | none => false) &&
  st.agents.all (fun p =>
    decide p.2.territories.Nodup &&
    p.2.territories.all (fun tid =>
      match mapGet st.territories tid with
      | some t => t.owner == some p.1
      | none => false))

/-- The propositional reading of `partitionInv`. -/
def PartInvP (st : GameState) : Prop :=
  (mapKeys st.territories).Nodup ∧
  (mapKeys st.agents).Nodup ∧
  (∀ tid t, mapGet st.territories tid = some t →
     ∀ aid, t.owner = some aid →
       ∃ ag, mapGet st.agents aid = some ag ∧ tid ∈ ag.territories) ∧
  (∀ aid ag, mapGet st.agents aid = some ag →
     ag.territories.Nodup ∧
     (∀ tid, tid ∈ ag.territories →
        ∃ t, mapGet st.territories tid = some t ∧ t.owner = some aid))

/-- The Boolean partition check holds exactly when its propositional
reading does. -/
theorem partitionInv_iff (st : GameState) :
    partitionInv st = true ↔ PartInvP st := by
  unfold partitionInv PartInvP
  simp only [Bool.and_eq_true, decide_eq_true_eq, List.all_eq_true]
  constructor
  · rintro ⟨⟨⟨h1, h2⟩, h3⟩, h4⟩
    refine ⟨h1, h2, ?_, ?_⟩
    · intro tid t hget aid hown
      have hb := h3 (tid, t) (mem_of_mapGet hget)
      replace hb : (match t.owner with
        | none => true
        | some aid =>
          match mapGet st.agents aid with
          | some ag => decide (tid ∈ ag.territories)
          | none => false) = true := hb
      rw [hown] at hb
      replace hb : (match mapGet st.agents aid with
        | some ag => decide (tid ∈ ag.territories)
        | none => false) = true := hb
      cases hag : mapGet st.agents aid with
      | none =>
        rw [hag] at hb
        exact absurd hb (by simp)
      | some ag =>
        rw [hag] at hb
        exact ⟨ag, rfl, by simpa using hb⟩
    · intro aid ag hget
      obtain ⟨hnd, hall⟩ := h4 (aid, ag) (mem_of_mapGet hget)
      refine ⟨hnd, ?_⟩
      intro tid htid
      have hb2 := hall tid htid
      cases hgt : mapGet st.territories tid with
      | none =>
        rw [hgt] at hb2
        exact absurd hb2 (by simp)
      | some t =>
        rw [hgt] at hb2
        exact ⟨t, rfl, by simpa using hb2⟩
  · rintro ⟨h1, h2, h3, h4⟩
    refine ⟨⟨⟨h1, h2⟩, ?_⟩, ?_⟩
    · intro p hp
      obtain ⟨tid, t⟩ := p
      show (match t.owner with
        | none => true
        | some aid =>
          match mapGet st.agents aid with
          | some ag => decide (tid ∈ ag.territories)
          | none => false) = true
      cases hown : t.owner with
      | none => rfl
      | some aid =>
        have hget : mapGet st.territories tid = some t :=
          mapGet_eq_some_of_mem h1 hp
        obtain ⟨ag, hag, hmem⟩ := h3 tid t hget aid hown
        show (match mapGet st.agents aid with
          | some ag => decide (tid ∈ ag.territories)
          | none => false) = true
        rw [hag]
        simpa using hmem
    · intro p hp
      obtain ⟨aid, ag⟩ := p
      have hget : mapGet st.agents aid = some ag := mapGet_eq_some_of_mem h2 hp
      obtain ⟨hnd, hcons⟩ := h4 aid ag hget
      refine ⟨hnd, ?_⟩
      intro tid htid
      obtain ⟨t, hgt, hown⟩ := hcons tid htid
      show (match mapGet st.territories tid with
        | some t => t.owner == some aid
        | none => false) = true
      rw [hgt]
      simpa using hown

/-- The per-territory reset inside `removeAgent`
(`t.owner = null; t.armies = 0`). -/
def clearT (t : Territory) : Territory := { t with owner := none, armies := 0 }

/-- One step of the territory-return loop of `removeAgent`: reset the
territory if it exists. -/
def clearTerritory (territories : JsMap Territory) (tid : String) : JsMap Territory :=
  match mapGet territories tid with
  | none => territories
  | some t => mapSet territories tid (clearT t)

/-- `GameState.removeAgent`: return the participant's territories to
neutral and delete the participant record; a no-op for an unknown
id. -/
def removeAgent (st : GameState) (agentId : String) : GameState :=
  match mapGet st.agents agentId with
  | none => st
  | some ag =>
    { st with territories := ag.territories.foldl clearTerritory st.territories,
              agents := mapDelete st.agents agentId }

/-- Overwriting a present key leaves the key list unchanged. -/
theorem mapKeys_mapSet_of_get {α : Type} {m : JsMap α} {k : String} {v0 : α}
    (h : mapGet m k = some v0) (v : α) :
    mapKeys (mapSet m k v) = mapKeys m := by
  induction m with
  | nil => simp [mapGet] at h
  | cons p rest ih =>
    obtain ⟨k', v'⟩ := p
    rw [mapGet] at h
    rw [mapSet]
    by_cases hk : k' = k
    · rw [if_pos hk]
      subst hk
      rfl
    · rw [if_neg hk] at h ⊢
      show k' :: mapKeys (mapSet rest k v) = k' :: mapKeys rest
      rw [ih h]

/-- Point lookup after one `clearTerritory` step. -/
theorem clearTerritory_get (m : JsMap Territory) (x tid : String) :
    mapGet (clearTerritory m x) tid =
      if x = tid then (mapGet m tid).map clearT else mapGet m tid := by
  unfold clearTerritory
  cases hx : mapGet m x with
  | none =>
    by_cases he : x = tid
    · rw [if_pos he]
      rw [← he, hx]
      rfl
    · rw [if_neg he]
  | some t =>
    by_cases he : x = tid
    · subst he
      rw [if_pos rfl, mapGet_mapSet_self, hx]
      rfl
    · rw [if_neg he]
      exact mapGet_mapSet_ne _ _ _ _ (Ne.symm he)

/-- One `clearTerritory` step preserves the key list. -/
theorem clearTerritory_keys (m : JsMap Territory) (x : String) :
    mapKeys (clearTerritory m x) = mapKeys m := by
  unfold clearTerritory
  cases hx : mapGet m x with
  | none => rfl
  | some t => exact mapKeys_mapSet_of_get hx _

/-- Point lookup after the whole territory-return loop: territories in
the processed list are cleared, others untouched. -/
theorem foldl_clear_get (l : List String) :
    ∀ (m : JsMap Territory) (tid : String),
      mapGet (l.foldl clearTerritory m) tid =
        if tid ∈ l then (mapGet m tid).map clearT else mapGet m tid := by
  induction l with
  | nil => intro m tid; simp
  | cons x xs ih =>
    intro m tid
    simp only [List.foldl_cons]
    rw [ih, clearTerritory_get]
    by_cases hx : x = tid
    · subst hx
      by_cases hxs : x ∈ xs
      · rw [if_pos hxs, if_pos rfl, if_pos (List.mem_cons_self _ _)]
        cases mapGet m x <;> rfl
      · rw [if_neg hxs, if_pos rfl, if_pos (List.mem_cons_self _ _)]
    · by_cases hxs : tid ∈ xs
      · rw [if_pos hxs, if_neg hx, if_pos (List.mem_cons_of_mem _ hxs)]
      · rw [if_neg hxs, if_neg hx,
            if_neg (by
              rw [List.mem_cons]
              rintro (he | hm)
              · exact hx he.symm
              · exact hxs hm)]

/-- The territory-return loop preserves the key list. -/
theorem foldl_clear_keys (l : List String) :
    ∀ m : JsMap Territory, mapKeys (l.foldl clearTerritory m) = mapKeys m := by
  induction l with
  | nil => intro m; rfl
  | cons x xs ih =>
    intro m
    simp only [List.foldl_cons]
    rw [ih, clearTerritory_keys]

/-- Deleting an entry yields a sublist of the original bindings. -/
theorem mapDelete_sublist {α : Type} (m : JsMap α) (k : String) :
    List.Sublist (mapDelete m k) m := by
  induction m with
  | nil => simp [mapDelete]
  | cons p rest ih =>
    rw [mapDelete]
    by_cases h : p.1 = k
    · rw [show (if p.1 = k then rest else p :: mapDelete rest k) = rest from if_pos h]
      exact List.sublist_cons_self p rest
    · rw [show (if p.1 = k then rest else p :: mapDelete rest k) =
            p :: mapDelete rest k from if_neg h]
      exact List.Sublist.cons₂ p ih

/-- With duplicate-free keys, the deleted key is gone. -/
theorem mapGet_mapDelete_self {α : Type} (m : JsMap α) (k : String)
    (hnd : (mapKeys m).Nodup) : mapGet (mapDelete m k) k = none := by
  induction m with
  | nil => rfl
  | cons p rest ih =>
    obtain ⟨k', v'⟩ := p
    rw [mapKeys, List.map_cons, List.nodup_cons] at hnd
    rw [mapDelete]
    by_cases h : k' = k
    · rw [if_pos h]
      subst h
      exact mapGet_eq_none_of_not_mem hnd.1
    · rw [if_neg h, mapGet, if_neg h]
      exact ih hnd.2

/-- Deleting one key leaves other lookups unchanged. -/
theorem mapGet_mapDelete_ne {α : Type} (m : JsMap α) (k k' : String)
    (h : k' ≠ k) : mapGet (mapDelete m k) k' = mapGet m k' := by
  induction m with
  | nil => rfl
  | cons p rest ih =>
    obtain ⟨k0, v0⟩ := p
    rw [mapDelete]
    by_cases h0 : k0 = k
    · rw [if_pos h0, mapGet, if_neg (by rw [h0]; exact fun he => h he.symm)]
    · rw [if_neg h0, mapGet, mapGet]
      by_cases h1 : k0 = k'
      · rw [if_pos h1, if_pos h1]
      · rw [if_neg h1, if_neg h1]
        exact ih

/-- `removeAgent` preserves the partition invariant: the removed
participant's territories revert to unowned and its record disappears,
while every other binding is untouched. -/
theorem removeAgent_preserves (st : GameState) (agentId : String)
    (hinv : PartInvP st) : PartInvP (removeAgent st agentId) := by
  obtain ⟨h1, h2, h3, h4⟩ := hinv
  unfold removeAgent
  cases hag : mapGet st.agents agentId with
  | none => exact ⟨h1, h2, h3, h4⟩
  | some ag =>
    have hA : (mapKeys (ag.territories.foldl clearTerritory st.territories)).Nodup := by
      rw [foldl_clear_keys]
      exact h1
    have hB : (mapKeys (mapDelete st.agents agentId)).Nodup :=
      List.Nodup.sublist (List.Sublist.map Prod.fst (mapDelete_sublist _ _)) h2
    have hC : ∀ tid t,
        mapGet (ag.territories.foldl clearTerritory st.territories) tid = some t →
        ∀ aid, t.owner = some aid →
          ∃ ag₂, mapGet (mapDelete st.agents agentId) aid = some ag₂ ∧
            tid ∈ ag₂.territories := by
      intro tid t hget aid hown
      rw [foldl_clear_get] at hget
      by_cases hmem : tid ∈ ag.territories
      · rw [if_pos hmem] at hget
        cases ho : mapGet st.territories tid with
        | none =>
          rw [ho] at hget
          exact Option.noConfusion hget
        | some t0 =>
          rw [ho] at hget
          injection hget with he
          rw [← he] at hown
          exact Option.noConfusion hown
      · rw [if_neg hmem] at hget
        obtain ⟨ag₂, hag₂, hmem₂⟩ := h3 tid t hget aid hown
        have haid : aid ≠ agentId := by
          intro he
          subst he
          rw [hag] at hag₂
          injection hag₂ with he2
          subst he2
          exact hmem hmem₂
        refine ⟨ag₂, ?_, hmem₂⟩
        rw [mapGet_mapDelete_ne _ _ _ haid]
        exact hag₂
    have hD : ∀ aid ag₂, mapGet (mapDelete st.agents agentId) aid = some ag₂ →
        ag₂.territories.Nodup ∧
        (∀ tid, tid ∈ ag₂.territories →
          ∃ t, mapGet (ag.territories.foldl clearTerritory st.territories) tid =
              some t ∧ t.owner = some aid) := by
      intro aid ag₂ hget₂
      have haid : aid ≠ agentId := by
        intro he
        subst he
        rw [mapGet_mapDelete_self _ _ h2] at hget₂
        exact Option.noConfusion hget₂
      rw [mapGet_mapDelete_ne _ _ _ haid] at hget₂
      obtain ⟨hnd2, hcons⟩ := h4 aid ag₂ hget₂
      refine ⟨hnd2, ?_⟩
      intro tid htid
      obtain ⟨t, hgt, hown⟩ := hcons tid htid
      have htid_notin : tid ∉ ag.territories := by
        intro hmem
        obtain ⟨-, hconsA⟩ := h4 agentId ag hag
        obtain ⟨t', hgt', hown'⟩ := hconsA tid hmem
        rw [hgt] at hgt'
        injection hgt' with he
        subst he
        rw [hown] at hown'
        injection hown' with he2
        exact haid he2
      refine ⟨t, ?_, hown⟩
      rw [foldl_clear_get, if_neg htid_notin]
      exact hgt
    exact ⟨hA, hB, hC, hD⟩


/-- Characterization of membership in the filtered territory list of a
dispossessed owner. -/
theorem mem_filter_ne {l : List String} {x tid : String} :
    x ∈ l.filter (fun y => y != tid) ↔ x ∈ l ∧ x ≠ tid := by
  rw [List.mem_filter]
  simp [bne_iff_ne]

/-- `applyBattleResult` preserves the partition invariant, provided the
declared winner (when it is a participant id) is a live participant —
which `resolveBattles` guarantees whenever every revealed attacker is
live, since a winner is either the current owner or one of the
attackers. -/
theorem applyBattleResult_preserves (st : GameState) (tid : String)
    (res : BattleResult) (hinv : PartInvP st)
    (hwin : ∀ wid, res.winner = some wid →
      (mapGet st.agents wid).isSome = true) :
    PartInvP (applyBattleResult st tid res) := by
  obtain ⟨h1, h2, h3, h4⟩ := hinv
  unfold applyBattleResult
  cases hgt : mapGet st.territories tid with
  | none => exact ⟨h1, h2, h3, h4⟩
  | some t =>
    show PartInvP (if res.winner ≠ t.owner then
      { st with
          agents := award (dispossess st.agents t.owner tid t.armies)
            res.winner tid res.remainingArmies,
          territories := mapSet st.territories tid
            ({ t with owner := res.winner, armies := res.remainingArmies }) }
      else
        { st with territories := mapSet st.territories tid ({ t with armies := res.remainingArmies }) })
    have hA : (mapKeys (mapSet st.territories tid
        ({ t with owner := res.winner, armies := res.remainingArmies }))).Nodup := by
      rw [mapKeys_mapSet_of_get hgt]
      exact h1
    have htidNotInWinner : ∀ wid agw, res.winner ≠ t.owner →
        res.winner = some wid → mapGet st.agents wid = some agw →
        tid ∉ agw.territories := by
      intro wid agw hw hwres hagw hmem
      obtain ⟨-, hcons⟩ := h4 wid agw hagw
      obtain ⟨t0, hgt0, hown0⟩ := hcons tid hmem
      rw [hgt] at hgt0
      injection hgt0 with he
      subst he
      rw [hwres, hown0] at hw
      exact hw rfl
    by_cases hw : res.winner ≠ t.owner
    · rw [if_pos hw]
      rcases ho : t.owner with - | oid
      · -- the territory was unowned, so only the winner side acts
        rw [show dispossess st.agents none tid t.armies = st.agents from rfl]
        cases hwres : res.winner with
        | none =>
          rw [hwres, ho] at hw
          exact absurd rfl hw
        | some wid =>
          have hsome := hwin wid hwres
          cases hagw : mapGet st.agents wid with
          | none =>
            rw [hagw] at hsome
            exact absurd hsome (by simp)
          | some agw =>
            have haward : award st.agents (some wid) tid res.remainingArmies =
                mapSet st.agents wid ({ agw with
                  territories := agw.territories ++ [tid],
                  armies := agw.armies + res.remainingArmies }) := by
              simp only [award, hagw]
            rw [haward]
            have htidN : tid ∉ agw.territories :=
              htidNotInWinner wid agw hw hwres hagw
            have hB : (mapKeys (mapSet st.agents wid ({ agw with
                territories := agw.territories ++ [tid],
                armies := agw.armies + res.remainingArmies }))).Nodup := by
              rw [mapKeys_mapSet_of_get hagw]
              exact h2
            have hC : ∀ tid' t', mapGet (mapSet st.territories tid
                ({ t with owner := some wid, armies := res.remainingArmies })) tid' =
                  some t' →
                ∀ aid, t'.owner = some aid →
                ∃ ag₂, mapGet (mapSet st.agents wid ({ agw with
                    territories := agw.territories ++ [tid],
                    armies := agw.armies + res.remainingArmies })) aid = some ag₂ ∧
                  tid' ∈ ag₂.territories := by
              intro tid' t' hget' aid hown'
              by_cases htt : tid' = tid
              · subst htt
                rw [mapGet_mapSet_self] at hget'
                injection hget' with he
                rw [← he] at hown'
                replace hown' : some wid = some aid := hown'
                injection hown' with he2
                subst he2
                refine ⟨_, mapGet_mapSet_self _ _ _, ?_⟩
                exact List.mem_append.mpr (Or.inr (List.mem_singleton_self _))
              · rw [mapGet_mapSet_ne _ _ _ _ htt] at hget'
                obtain ⟨ag₂, hag₂, hm₂⟩ := h3 tid' t' hget' aid hown'
                by_cases haw2 : aid = wid
                · subst haw2
                  rw [hagw] at hag₂
                  injection hag₂ with he
                  subst he
                  refine ⟨_, mapGet_mapSet_self _ _ _, ?_⟩
                  exact List.mem_append.mpr (Or.inl hm₂)
                · refine ⟨ag₂, ?_, hm₂⟩
                  rw [mapGet_mapSet_ne _ _ _ _ haw2]
                  exact hag₂
            have hD : ∀ aid ag₂, mapGet (mapSet st.agents wid ({ agw with
                territories := agw.territories ++ [tid],
                armies := agw.armies + res.remainingArmies })) aid = some ag₂ →
                ag₂.territories.Nodup ∧
                (∀ tid', tid' ∈ ag₂.territories →
                  ∃ t0, mapGet (mapSet st.territories tid
                    ({ t with owner := some wid,
                              armies := res.remainingArmies })) tid' = some t0 ∧
                    t0.owner = some aid) := by
              intro aid ag₂ hag₂
              by_cases haw2 : aid = wid
              · subst haw2
                rw [mapGet_mapSet_self] at hag₂
                injection hag₂ with he
                subst he
                obtain ⟨hnd2, hcons⟩ := h4 aid agw hagw
                constructor
                · show (agw.territories ++ [tid]).Nodup
                  rw [List.nodup_append]
                  exact ⟨hnd2, List.nodup_singleton _,
                    fun a ha hb => (List.mem_singleton.mp hb ▸ htidN) ha⟩
                · intro tid' htid'
                  rcases List.mem_append.mp htid' with hm | hm
                  · obtain ⟨t0, hgt0, hown0⟩ := hcons tid' hm
                    have hne : tid' ≠ tid := fun he => htidN (he ▸ hm)
                    refine ⟨t0, ?_, hown0⟩
                    rw [mapGet_mapSet_ne _ _ _ _ hne]
                    exact hgt0
                  · rw [List.mem_singleton.mp hm]
                    exact ⟨_, mapGet_mapSet_self _ _ _, rfl⟩
              · rw [mapGet_mapSet_ne _ _ _ _ haw2] at hag₂
                obtain ⟨hnd2, hcons⟩ := h4 aid ag₂ hag₂
                refine ⟨hnd2, ?_⟩
                intro tid' htid'
                obtain ⟨t0, hgt0, hown0⟩ := hcons tid' htid'
                have hne : tid' ≠ tid := by
                  intro he
                  subst he
                  rw [hgt] at hgt0
                  injection hgt0 with he2
                  subst he2
                  rw [hown0] at ho
                  exact Option.noConfusion ho
                refine ⟨t0, ?_, hown0⟩
                rw [mapGet_mapSet_ne _ _ _ _ hne]
                exact hgt0
            exact ⟨by rw [hwres] at hA; exact hA, hB, hC, hD⟩
      · -- the territory was owned; the old owner exists by the invariant
        obtain ⟨oldOwner, holdg, holdm⟩ := h3 tid t hgt oid ho
        have hdis : dispossess st.agents (some oid) tid t.armies =
            mapSet st.agents oid ({ oldOwner with
              territories := oldOwner.territories.filter (fun x => x != tid),
              armies := oldOwner.armies - t.armies }) := by
          simp only [dispossess, holdg]
        rw [hdis]
        cases hwres : res.winner with
        | none =>
          rw [show award (mapSet st.agents oid ({ oldOwner with
              territories := oldOwner.territories.filter (fun x => x != tid),
              armies := oldOwner.armies - t.armies })) none tid res.remainingArmies =
            mapSet st.agents oid ({ oldOwner with
              territories := oldOwner.territories.filter (fun x => x != tid),
              armies := oldOwner.armies - t.armies }) from rfl]
          have hB : (mapKeys (mapSet st.agents oid ({ oldOwner with
              territories := oldOwner.territories.filter (fun x => x != tid),
              armies := oldOwner.armies - t.armies }))).Nodup := by
            rw [mapKeys_mapSet_of_get holdg]
            exact h2
          have hC : ∀ tid' t', mapGet (mapSet st.territories tid
              ({ t with owner := none, armies := res.remainingArmies })) tid' =
                some t' →
              ∀ aid, t'.owner = some aid →
              ∃ ag₂, mapGet (mapSet st.agents oid ({ oldOwner with
                  territories := oldOwner.territories.filter (fun x => x != tid),
                  armies := oldOwner.armies - t.armies })) aid = some ag₂ ∧
                tid' ∈ ag₂.territories := by
            intro tid' t' hget' aid hown'
            by_cases htt : tid' = tid
            · subst htt
              rw [mapGet_mapSet_self] at hget'
              injection hget' with he
              rw [← he] at hown'
              replace hown' : (none : Option String) = some aid := hown'
              exact Option.noConfusion hown'
            · rw [mapGet_mapSet_ne _ _ _ _ htt] at hget'
              obtain ⟨ag₂, hag₂, hm₂⟩ := h3 tid' t' hget' aid hown'
              by_cases hao : aid = oid
              · subst hao
                rw [holdg] at hag₂
                injection hag₂ with he
                subst he
                refine ⟨_, mapGet_mapSet_self _ _ _, ?_⟩
                exact mem_filter_ne.mpr ⟨hm₂, htt⟩
              · refine ⟨ag₂, ?_, hm₂⟩
                rw [mapGet_mapSet_ne _ _ _ _ hao]
                exact hag₂
          have hD : ∀ aid ag₂, mapGet (mapSet st.agents oid ({ oldOwner with
              territories := oldOwner.territories.filter (fun x => x != tid),
              armies := oldOwner.armies - t.armies })) aid = some ag₂ →
              ag₂.territories.Nodup ∧
              (∀ tid', tid' ∈ ag₂.territories →
                ∃ t0, mapGet (mapSet st.territories tid
                  ({ t with owner := none,
                            armies := res.remainingArmies })) tid' = some t0 ∧
                  t0.owner = some aid) := by
            intro aid ag₂ hag₂
            by_cases hao : aid = oid
            · subst hao
              rw [mapGet_mapSet_self] at hag₂
              injection hag₂ with he
              subst he
              obtain ⟨hnd2, hcons⟩ := h4 aid oldOwner holdg
              constructor
              · exact List.Nodup.filter _ hnd2
              · intro tid' htid'
                obtain ⟨hm, hne⟩ := mem_filter_ne.mp htid'
                obtain ⟨t0, hgt0, hown0⟩ := hcons tid' hm
                refine ⟨t0, ?_, hown0⟩
                rw [mapGet_mapSet_ne _ _ _ _ hne]
                exact hgt0
            · rw [mapGet_mapSet_ne _ _ _ _ hao] at hag₂
              obtain ⟨hnd2, hcons⟩ := h4 aid ag₂ hag₂
              refine ⟨hnd2, ?_⟩
              intro tid' htid'
              obtain ⟨t0, hgt0, hown0⟩ := hcons tid' htid'
              have hne : tid' ≠ tid := by
                intro he
                subst he
                rw [hgt] at hgt0
                injection hgt0 with he2
                subst he2
                rw [hown0] at ho
                injection ho with he3
                exact hao he3
              refine ⟨t0, ?_, hown0⟩
              rw [mapGet_mapSet_ne _ _ _ _ hne]
              exact hgt0
          exact ⟨by rw [hwres] at hA; exact hA, hB, hC, hD⟩
        | some wid =>
          have hwo : wid ≠ oid := by
            intro he
            rw [hwres, ho, he] at hw
            exact hw rfl
          have hsome := hwin wid hwres
          cases hagw : mapGet st.agents wid with
          | none =>
            rw [hagw] at hsome
            exact absurd hsome (by simp)
          | some agw =>
            have haward : award (mapSet st.agents oid ({ oldOwner with
                territories := oldOwner.territories.filter (fun x => x != tid),
                armies := oldOwner.armies - t.armies })) (some wid) tid
                res.remainingArmies =
              mapSet (mapSet st.agents oid ({ oldOwner with
                territories := oldOwner.territories.filter (fun x => x != tid),
                armies := oldOwner.armies - t.armies })) wid ({ agw with
                territories := agw.territories ++ [tid],
                armies := agw.armies + res.remainingArmies }) := by
              simp only [award, mapGet_mapSet_ne _ _ _ _ hwo, hagw]
            rw [haward]
            have htidN : tid ∉ agw.territories :=
              htidNotInWinner wid agw hw hwres hagw
            set old1 : Agent := { oldOwner with territories := oldOwner.territories.filter (fun x => x != tid), armies := oldOwner.armies - t.armies } with hold1def
            set new1 : Agent := { agw with territories := agw.territories ++ [tid], armies := agw.armies + res.remainingArmies } with hnew1def
            have hget2o : mapGet (mapSet (mapSet st.agents oid old1) wid new1) oid =
                some old1 := by
              rw [mapGet_mapSet_ne _ _ _ _ (Ne.symm hwo), mapGet_mapSet_self]
            have hget2w : mapGet (mapSet (mapSet st.agents oid old1) wid new1) wid =
                some new1 := mapGet_mapSet_self _ _ _
            have hget2 : ∀ aid, aid ≠ oid → aid ≠ wid →
                mapGet (mapSet (mapSet st.agents oid old1) wid new1) aid =
                  mapGet st.agents aid := by
              intro aid hno hnw
              rw [mapGet_mapSet_ne _ _ _ _ hnw, mapGet_mapSet_ne _ _ _ _ hno]
            have hB : (mapKeys (mapSet (mapSet st.agents oid old1) wid new1)).Nodup := by
              rw [mapKeys_mapSet_of_get
                    (by rw [mapGet_mapSet_ne _ _ _ _ hwo]; exact hagw),
                  mapKeys_mapSet_of_get holdg]
              exact h2
            have hC : ∀ tid' t', mapGet (mapSet st.territories tid
                ({ t with owner := some wid, armies := res.remainingArmies })) tid' =
                  some t' →
                ∀ aid, t'.owner = some aid →
                ∃ ag₂, mapGet (mapSet (mapSet st.agents oid old1) wid new1) aid =
                    some ag₂ ∧ tid' ∈ ag₂.territories := by
              intro tid' t' hget' aid hown'
              by_cases htt : tid' = tid
              · subst htt
                rw [mapGet_mapSet_self] at hget'
                injection hget' with he
                rw [← he] at hown'
                replace hown' : some wid = some aid := hown'
                injection hown' with he2
                subst he2
                refine ⟨new1, hget2w, ?_⟩
                exact List.mem_append.mpr (Or.inr (List.mem_singleton_self _))
              · rw [mapGet_mapSet_ne _ _ _ _ htt] at hget'
                obtain ⟨ag₂, hag₂, hm₂⟩ := h3 tid' t' hget' aid hown'
                by_cases haw2 : aid = wid
                · subst haw2
                  rw [hagw] at hag₂
                  injection hag₂ with he
                  subst he
                  exact ⟨new1, hget2w, List.mem_append.mpr (Or.inl hm₂)⟩
                · by_cases hao : aid = oid
                  · subst hao
                    rw [holdg] at hag₂
                    injection hag₂ with he
                    subst he
                    exact ⟨old1, hget2o, mem_filter_ne.mpr ⟨hm₂, htt⟩⟩
                  · refine ⟨ag₂, ?_, hm₂⟩
                    rw [hget2 aid hao haw2]
                    exact hag₂
            have hD : ∀ aid ag₂,
                mapGet (mapSet (mapSet st.agents oid old1) wid new1) aid =
                  some ag₂ →
                ag₂.territories.Nodup ∧
                (∀ tid', tid' ∈ ag₂.territories →
                  ∃ t0, mapGet (mapSet st.territories tid
                    ({ t with owner := some wid,
                              armies := res.remainingArmies })) tid' = some t0 ∧
                    t0.owner = some aid) := by
              intro aid ag₂ hag₂
              by_cases haw2 : aid = wid
              · subst haw2
                rw [hget2w] at hag₂
                injection hag₂ with he
                subst he
                obtain ⟨hnd2, hcons⟩ := h4 aid agw hagw
                constructor
                · show (agw.territories ++ [tid]).Nodup
                  rw [List.nodup_append]
                  exact ⟨hnd2, List.nodup_singleton _,
                    fun a ha hb => (List.mem_singleton.mp hb ▸ htidN) ha⟩
                · intro tid' htid'
                  rcases List.mem_append.mp htid' with hm | hm
                  · obtain ⟨t0, hgt0, hown0⟩ := hcons tid' hm
                    have hne : tid' ≠ tid := fun he => htidN (he ▸ hm)
                    refine ⟨t0, ?_, hown0⟩
                    rw [mapGet_mapSet_ne _ _ _ _ hne]
                    exact hgt0
                  · rw [List.mem_singleton.mp hm]
                    exact ⟨_, mapGet_mapSet_self _ _ _, rfl⟩
              · by_cases hao : aid = oid
                · subst hao
                  rw [hget2o] at hag₂
                  injection hag₂ with he
                  subst he
                  obtain ⟨hnd2, hcons⟩ := h4 aid oldOwner holdg
                  constructor
                  · exact List.Nodup.filter _ hnd2
                  · intro tid' htid'
                    obtain ⟨hm, hne⟩ := mem_filter_ne.mp htid'
                    obtain ⟨t0, hgt0, hown0⟩ := hcons tid' hm
                    refine ⟨t0, ?_, hown0⟩
                    rw [mapGet_mapSet_ne _ _ _ _ hne]
                    exact hgt0
                · rw [hget2 aid hao haw2] at hag₂
                  obtain ⟨hnd2, hcons⟩ := h4 aid ag₂ hag₂
                  refine ⟨hnd2, ?_⟩
                  intro tid' htid'
                  obtain ⟨t0, hgt0, hown0⟩ := hcons tid' htid'
                  have hne : tid' ≠ tid := by
                    intro he
                    subst he
                    rw [hgt] at hgt0
                    injection hgt0 with he2
                    subst he2
                    rw [hown0] at ho
                    injection ho with he3
                    exact hao he3
                  refine ⟨t0, ?_, hown0⟩
                  rw [mapGet_mapSet_ne _ _ _ _ hne]
                  exact hgt0
            exact ⟨by rw [hwres] at hA; exact hA, hB, hC, hD⟩
    · rw [if_neg hw]
      push_neg at hw
      have hA2 : (mapKeys (mapSet st.territories tid
          ({ t with armies := res.remainingArmies }))).Nodup := by
        rw [mapKeys_mapSet_of_get hgt]
        exact h1
      have hC : ∀ tid' t', mapGet (mapSet st.territories tid
          ({ t with armies := res.remainingArmies })) tid' = some t' →
          ∀ aid, t'.owner = some aid →
          ∃ ag₂, mapGet st.agents aid = some ag₂ ∧ tid' ∈ ag₂.territories := by
        intro tid' t' hget' aid hown'
        by_cases htt : tid' = tid
        · subst htt
          rw [mapGet_mapSet_self] at hget'
          injection hget' with he
          rw [← he] at hown'
          replace hown' : t.owner = some aid := hown'
          exact h3 tid' t hgt aid hown'
        · rw [mapGet_mapSet_ne _ _ _ _ htt] at hget'
          exact h3 tid' t' hget' aid hown'
      have hD : ∀ aid ag₂, mapGet st.agents aid = some ag₂ →
          ag₂.territories.Nodup ∧
          (∀ tid', tid' ∈ ag₂.territories →
            ∃ t0, mapGet (mapSet st.territories tid
              ({ t with armies := res.remainingArmies })) tid' = some t0 ∧
              t0.owner = some aid) := by
        intro aid ag₂ hag₂
        obtain ⟨hnd2, hcons⟩ := h4 aid ag₂ hag₂
        refine ⟨hnd2, ?_⟩
        intro tid' htid'
        obtain ⟨t0, hgt0, hown0⟩ := hcons tid' htid'
        by_cases htt : tid' = tid
        · subst htt
          rw [hgt] at hgt0
          injection hgt0 with he
          subst he
          refine ⟨_, mapGet_mapSet_self _ _ _, ?_⟩
          show t.owner = some aid
          exact hown0
        · refine ⟨t0, ?_, hown0⟩
          rw [mapGet_mapSet_ne _ _ _ _ htt]
          exact hgt0
      exact ⟨hA2, h2, hC, hD⟩

/-- Dispossessing an owner does not change the participant key list. -/
theorem dispossess_keys (agents : JsMap Agent) (owner : Option String)
    (tid : String) (armies : Int) :
    mapKeys (dispossess agents owner tid armies) = mapKeys agents := by
  cases owner with
  | none => rfl
  | some oid =>
    cases hg : mapGet agents oid with
    | none => simp only [dispossess, hg]
    | some oldOwner =>
      simp only [dispossess, hg]
      exact mapKeys_mapSet_of_get hg _

/-- Awarding a territory does not change the participant key list. -/
theorem award_keys (agents : JsMap Agent) (winner : Option String)
    (tid : String) (remaining : Int) :
    mapKeys (award agents winner tid remaining) = mapKeys agents := by
  cases winner with
  | none => rfl
  | some wid =>
    cases hg : mapGet agents wid with
    | none => simp only [award, hg]
    | some newOwner =>
      simp only [award, hg]
      exact mapKeys_mapSet_of_get hg _

/-- Applying a battle result does not change the participant key
list. -/
theorem applyBattleResult_agents_keys (st : GameState) (tid : String)
    (res : BattleResult) :
    mapKeys (applyBattleResult st tid res).agents = mapKeys st.agents := by
  unfold applyBattleResult
  cases hgt : mapGet st.territories tid with
  | none => rfl
  | some t =>
    show mapKeys ((if res.winner ≠ t.owner then
      ({ st with
          agents := award (dispossess st.agents t.owner tid t.armies)
            res.winner tid res.remainingArmies,
          territories := mapSet st.territories tid
            ({ t with owner := res.winner, armies := res.remainingArmies }) })
      else
        ({ st with territories := mapSet st.territories tid ({ t with armies := res.remainingArmies }) }) : GameState)).agents = mapKeys st.agents
    by_cases hw : res.winner ≠ t.owner
    · rw [if_pos hw]
      show mapKeys (award (dispossess st.agents t.owner tid t.armies)
        res.winner tid res.remainingArmies) = mapKeys st.agents
      rw [award_keys, dispossess_keys]
    · rw [if_neg hw]

/-- An entry of an updated map is the new binding or an old entry. -/
theorem mem_mapSet {α : Type} {m : JsMap α} {k : String} {v : α}
    {q : String × α} (h : q ∈ mapSet m k v) : q = (k, v) ∨ q ∈ m := by
  induction m with
  | nil =>
    simp only [mapSet, List.mem_singleton] at h
    exact Or.inl h
  | cons p rest ih =>
    rw [mapSet] at h
    by_cases hk : p.1 = k
    · rw [if_pos hk] at h
      rcases List.mem_cons.mp h with he | hm
      · exact Or.inl he
      · exact Or.inr (List.mem_cons_of_mem _ hm)
    · rw [if_neg hk] at h
      rcases List.mem_cons.mp h with he | hm
      · exact Or.inr (he ▸ List.mem_cons_self _ _)
      · rcases ih hm with he | hm2
        · exact Or.inl he
        · exact Or.inr (List.mem_cons_of_mem _ hm2)

/-- Every key of a battle's force table is one of its attackers. -/
theorem battleForces_keys_subset (battle : Battle) :
    ∀ q ∈ battleForces battle,
      q.1 ∈ battle.attackers.map (fun a => a.agentId) := by
  unfold battleForces
  have main : ∀ (l : List Attacker) (acc : ℚ × JsMap ℚ) (P : String → Prop),
      (∀ q ∈ acc.2, P q.1) → (∀ a ∈ l, P a.agentId) →
      ∀ q ∈ (l.foldl accumulateAttack acc).2, P q.1 := by
    intro l
    induction l with
    | nil => intro acc P hacc _ q hq; exact hacc q hq
    | cons a rest ih =>
      intro acc P hacc hl q hq
      simp only [List.foldl_cons] at hq
      refine ih (accumulateAttack acc a) P ?_
        (fun b hb => hl b (List.mem_cons_of_mem a hb)) q hq
      intro q' hq'
      rcases mem_mapSet hq' with he | hm
      · rw [he]
        exact hl a (List.mem_cons_self a rest)
      · exact hacc q' hm
  intro q hq
  exact main battle.attackers (0, []) _ (by simp) (fun a ha => List.mem_map.mpr ⟨a, ha, rfl⟩) q hq

/-- A battle's winner is the current owner, null, or one of the
attackers. -/
theorem resolveBattle_winner_cases (t : Territory) (battle : Battle)
    (r1 r2 : ℚ) :
    (resolveBattle t battle r1 r2).winner = t.owner ∨
    (resolveBattle t battle r1 r2).winner = none ∨
    (∃ wid, (resolveBattle t battle r1 r2).winner = some wid ∧
      wid ∈ battle.attackers.map (fun a => a.agentId)) := by
  unfold resolveBattle
  by_cases hc : r1 * battleTotalAttack battle >
      r2 * (t.armies : ℚ) * (3 / 2)
  · rw [if_pos hc]
    cases hfe : topForceEntry (battleForces battle) with
    | none => exact Or.inr (Or.inl rfl)
    | some p =>
      refine Or.inr (Or.inr ⟨p.1, rfl, ?_⟩)
      exact battleForces_keys_subset battle p (topForceEntry_spec _ p hfe).1
  · rw [if_neg hc]
    exact Or.inl rfl

/-- The side condition of the C5 battle theorem: every revealed attack
was committed by a live participant.  It holds in every run in which no
participant was removed after committing, since `commitMove` stores
only for known callers of the transport layer. -/
def revealedAttackersLive (st : GameState) : Bool :=
  st.revealedMoves.all (fun p =>
    p.2.c.move.type != "attack" || (mapGet st.agents p.1).isSome)

/-- Soundness of the grouping loop: every attacker of every grouped
battle carries the id of some revealed attacking participant. -/
theorem groupAttacks_attackers_sound (P : String → Prop)
    (revealed : JsMap RevealedMove)
    (hrev : ∀ p ∈ revealed, p.2.c.move.type = "attack" → P p.1) :
    ∀ pair ∈ groupAttacks revealed, ∀ att ∈ pair.2, P att.agentId := by
  unfold groupAttacks
  have main : ∀ (l : JsMap RevealedMove) (battles0 : JsMap (List Attacker)),
      (∀ pair ∈ battles0, ∀ att ∈ pair.2, P att.agentId) →
      (∀ p ∈ l, p.2.c.move.type = "attack" → P p.1) →
      ∀ pair ∈ l.foldl groupStep battles0, ∀ att ∈ pair.2, P att.agentId := by
    intro l
    induction l with
    | nil => intro battles0 hb _ pair hpair; exact hb pair hpair
    | cons p rest ih =>
      intro battles0 hb hl pair hpair
      simp only [List.foldl_cons] at hpair
      refine ih (groupStep battles0 p) ?_
        (fun q hq => hl q (List.mem_cons_of_mem p hq)) pair hpair
      intro pair' hpair' att hatt
      revert hpair'
      unfold groupStep
      by_cases hty : p.2.c.move.type = "attack"
      · rw [if_pos hty]
        cases hto : p.2.c.move.toT with
        | none => exact fun hpair' => hb pair' hpair' att hatt
        | some target =>
          intro hpair'
          rcases mem_mapSet hpair' with he | hm
          · subst he
            rcases List.mem_append.mp hatt with hm2 | hm2
            · cases hgb : mapGet battles0 target with
              | none =>
                rw [hgb] at hm2
                simp at hm2
              | some old =>
                rw [hgb] at hm2
                exact hb (target, old) (mem_of_mapGet hgb) att hm2
            · rw [List.mem_singleton.mp hm2]
              exact hl p (List.mem_cons_self p rest) hty
          · exact hb pair' hm att hatt
      · rw [if_neg hty]
        exact fun hpair' => hb pair' hpair' att hatt
  exact main revealed [] (by simp) hrev

/-- The battle loop of `resolveBattles` preserves the partition
invariant and the participant key list, as long as every grouped
attacker is a live participant. -/
theorem resolveBattles_fold_preserves (rand : Nat → ℚ) (K : List String) :
    ∀ (battles : List (String × List Attacker))
      (acc : GameState × List BattleResult × Nat),
      PartInvP acc.1 → mapKeys acc.1.agents = K →
      (∀ pair ∈ battles, ∀ att ∈ pair.2, att.agentId ∈ K) →
      PartInvP (battles.foldl (resolveStep rand) acc).1 ∧
        mapKeys (battles.foldl (resolveStep rand) acc).1.agents = K := by
  intro battles
  induction battles with
  | nil => intro acc hinv hkeys _; exact ⟨hinv, hkeys⟩
  | cons b rest ih =>
    intro acc hinv hkeys hatt
    simp only [List.foldl_cons]
    have hstep : PartInvP (resolveStep rand acc b).1 ∧
        mapKeys (resolveStep rand acc b).1.agents = K := by
      unfold resolveStep
      cases hgt : mapGet acc.1.territories b.1 with
      | none => exact ⟨hinv, hkeys⟩
      | some t =>
        have hwin : ∀ wid,
            (resolveBattle t { attackers := b.2 } (rand (2 * acc.2.2))
              (rand (2 * acc.2.2 + 1))).winner = some wid →
            (mapGet acc.1.agents wid).isSome = true := by
          intro wid hwid
          rcases resolveBattle_winner_cases t { attackers := b.2 }
              (rand (2 * acc.2.2)) (rand (2 * acc.2.2 + 1)) with hcase | hcase | hcase
          · rw [hwid] at hcase
            obtain ⟨ag, hag, -⟩ := hinv.2.2.1 b.1 t hgt wid hcase.symm
            rw [hag]
            rfl
          · rw [hwid] at hcase
            exact Option.noConfusion hcase
          · obtain ⟨wid2, hw2, hmem2⟩ := hcase
            rw [hwid] at hw2
            injection hw2 with he
            subst he
            apply mapGet_isSome_of_mem_keys
            rw [hkeys]
            rcases List.mem_map.mp hmem2 with ⟨a, ha, hae⟩
            exact hae ▸ hatt b (List.mem_cons_self b rest) a ha
        exact ⟨applyBattleResult_preserves acc.1 b.1 _ hinv hwin,
          by rw [applyBattleResult_agents_keys]; exact hkeys⟩
    exact ih (resolveStep rand acc b) hstep.1 hstep.2
      (fun pair hpair => hatt pair (List.mem_cons_of_mem b hpair))

/-- `resolveBattles` preserves the partition invariant whenever every
revealed attacker is a live participant. -/
theorem resolveBattles_preserves (st : GameState) (rand : Nat → ℚ)
    (hinv : partitionInv st = true)
    (hlive : revealedAttackersLive st = true) :
    partitionInv (resolveBattles st rand).1 = true := by
  rw [partitionInv_iff] at hinv ⊢
  show PartInvP ((groupAttacks st.revealedMoves).foldl (resolveStep rand)
    (st, ([], 0))).1
  have hatt : ∀ pair ∈ groupAttacks st.revealedMoves, ∀ att ∈ pair.2,
      att.agentId ∈ mapKeys st.agents := by
    apply groupAttacks_attackers_sound
    intro p hp hty
    have hb := List.all_eq_true.mp hlive p hp
    rw [hty] at hb
    simp only [bne_self_eq_false, Bool.false_or] at hb
    obtain ⟨v, hv⟩ := Option.isSome_iff_exists.mp hb
    exact mem_keys_of_mapGet hv
  exact (resolveBattles_fold_preserves rand (mapKeys st.agents) _
    (st, ([], 0)) hinv rfl hatt).1

/-- One in-place swap `[a[i], a[j]] = [a[j], a[i]]` from the shuffle loop
of `distributeTerritories` (GameState.js lines 166-169).  The JS
destructuring assignment is exact for in-range indices; an out-of-range
index, which the real draw `Math.floor(Math.random() * (i + 1))` never
produces, is modelled as a no-op. -/
def swapL {α : Type} (l : List α) (i j : Nat) : List α :=
  match l[i]?, l[j]? with
  | some a, some b => (l.set i b).set j a
  | _, _ => l

/-- A swap permutes the list. -/
theorem swapL_perm {α : Type} [DecidableEq α] (l : List α) (i j : Nat) :
    (swapL l i j).Perm l := by
  cases hi : l[i]? with
  | none => simp [swapL, hi]
  | some a =>
    cases hj : l[j]? with
    | none => simp [swapL, hi, hj]
    | some b =>
      have hred : swapL l i j = (l.set i b).set j a := by
        simp [swapL, hi, hj]
      obtain ⟨hil, hia⟩ := List.getElem?_eq_some.mp hi
      obtain ⟨hjl, hjb⟩ := List.getElem?_eq_some.mp hj
      have hjl' : j < (l.set i b).length := by
        rw [List.length_set]; exact hjl
      rw [hred]
      apply List.perm_iff_count.mpr
      intro c
      rw [List.count_set a c (l.set i b) j hjl', List.count_set b c l i hil]
      have hgs : (l.set i b)[j] = b := by
        rw [List.getElem_set]
        by_cases hij : i = j
        · rw [if_pos hij]
        · rw [if_neg hij]; exact hjb
      rw [hgs, hia]
      have hmem : a ∈ l := hia ▸ List.getElem_mem hil
      simp only [beq_iff_eq]
      by_cases hx : a = c <;> by_cases hy : b = c
      · have hN : 0 < List.count c l := List.count_pos_iff.mpr (hx ▸ hmem)
        rw [if_pos hx, if_pos hy]
        omega
      · have hN : 0 < List.count c l := List.count_pos_iff.mpr (hx ▸ hmem)
        rw [if_pos hx, if_neg hy]
        omega
      · rw [if_neg hx, if_pos hy]
        omega
      · rw [if_neg hx, if_neg hy]
        omega

/-- The Fisher-Yates loop of `distributeTerritories` (GameState.js lines
166-169), with the loop index counting down; `oracle i` supplies the
drawn index `Math.floor(Math.random() * (i + 1))` of iteration `i`. -/
def fyLoop {α : Type} (oracle : Nat → Nat) : Nat → List α → List α
  | 0, l => l
  | i + 1, l => fyLoop oracle i (swapL l (i + 1) (oracle (i + 1)))

/-- The full shuffle of the territory-id array. -/
def fisherYates {α : Type} (oracle : Nat → Nat) (l : List α) : List α :=
  fyLoop oracle (l.length - 1) l

/-- The shuffle loop permutes the list. -/
theorem fyLoop_perm {α : Type} [DecidableEq α] (oracle : Nat → Nat) :
    ∀ (i : Nat) (l : List α), (fyLoop oracle i l).Perm l := by
  intro i
  induction i with
  | zero => intro l; simp [fyLoop]
  | succ n ih =>
    intro l
    exact (ih _).trans (swapL_perm l (n + 1) (oracle (n + 1)))

/-- The shuffle permutes the list. -/
theorem fisherYates_perm {α : Type} [DecidableEq α] (oracle : Nat → Nat)
    (l : List α) : (fisherYates oracle l).Perm l :=
  fyLoop_perm oracle (l.length - 1) l

/-- One step of the even-distribution loop of `distributeTerritories`
(GameState.js lines 172-181): the territory `p.2` at shuffle position
`p.1` goes to agent `agentIds[p.1 % agentIds.length]` with 3 armies, and
that agent's territory list and army count grow accordingly.  The JS
code dereferences both map lookups unconditionally; a missing key, which
cannot happen for the ids the caller passes, is modelled as a no-op. -/
def assignStep (agentIds : List String) (st : GameState)
    (p : Nat × String) : GameState :=
  let aid := agentIds.getD (p.1 % agentIds.length) ""
  match mapGet st.territories p.2, mapGet st.agents aid with
  | some t, some ag =>
    let t' := { t with owner := some aid, armies := 3 }
    let ag' := { ag with territories := ag.territories ++ [p.2],
                         armies := ag.armies + 3 }
    { st with territories := mapSet st.territories p.2 t',
              agents := mapSet st.agents aid ag' }
  | _, _ => st

/-- The initial-resource pass of `distributeTerritories` (GameState.js
lines 184-187): every agent's resources are set to 10. -/
def giveInitialResources (st : GameState) : GameState :=
  { st with agents :=
      st.agents.map (fun p => (p.1, { p.2 with resources := 10 })) }

/-- `distributeTerritories` (GameState.js lines 161-191): shuffle the
territory ids, deal them round-robin with 3 armies each, then give every
agent 10 resources.  The `Math.random` draws are supplied by `oracle`. -/
def distributeTerritories (oracle : Nat → Nat) (st : GameState) :
    GameState :=
  let territoryIds := fisherYates oracle (mapKeys st.territories)
  let agentIds := mapKeys st.agents
  giveInitialResources (territoryIds.enum.foldl (assignStep agentIds) st)

/-- Assigning one unowned, retrievable territory to a live agent keeps
the partition invariant. -/
theorem assign_one_preserves (cur : GameState) (tid aid : String)
    (t : Territory) (ag : Agent)
    (hT : mapGet cur.territories tid = some t)
    (hA : mapGet cur.agents aid = some ag)
    (hfree : t.owner = none)
    (hinv : PartInvP cur) :
    PartInvP { cur with territories := mapSet cur.territories tid ({ t with owner := some aid, armies := 3 }), agents := mapSet cur.agents aid ({ ag with territories := ag.territories ++ [tid], armies := ag.armies + 3 }) } := by
  obtain ⟨h1, h2, h3, h4⟩ := hinv
  have htid_not : tid ∉ ag.territories := by
    intro hc
    obtain ⟨t0, ht0, hown0⟩ := (h4 aid ag hA).2 tid hc
    rw [hT] at ht0
    injection ht0 with ht0
    subst ht0
    rw [hfree] at hown0
    exact Option.noConfusion hown0
  have hTkeys := mapKeys_mapSet_of_get hT ({ t with owner := some aid, armies := 3 })
  have hAkeys := mapKeys_mapSet_of_get hA ({ ag with territories := ag.territories ++ [tid], armies := ag.armies + 3 })
  refine ⟨?_, ?_, ?_, ?_⟩
  · show (mapKeys (mapSet cur.territories tid ({ t with owner := some aid, armies := 3 }))).Nodup
    rw [hTkeys]
    exact h1
  · show (mapKeys (mapSet cur.agents aid ({ ag with territories := ag.territories ++ [tid], armies := ag.armies + 3 }))).Nodup
    rw [hAkeys]
    exact h2
  · show ∀ tid' t', mapGet (mapSet cur.territories tid ({ t with owner := some aid, armies := 3 })) tid' = some t' → ∀ aid', t'.owner = some aid' → ∃ ag', mapGet (mapSet cur.agents aid ({ ag with territories := ag.territories ++ [tid], armies := ag.armies + 3 })) aid' = some ag' ∧ tid' ∈ ag'.territories
    intro tid' t' hget' aid' hown'
    by_cases htt : tid' = tid
    · rw [htt, mapGet_mapSet_self] at hget'
      injection hget' with hget'
      rw [← hget'] at hown'
      replace hown' : some aid = some aid' := hown'
      injection hown' with hown'
      refine ⟨{ ag with territories := ag.territories ++ [tid], armies := ag.armies + 3 }, ?_, ?_⟩
      · rw [← hown']
        exact mapGet_mapSet_self _ _ _
      · show tid' ∈ ag.territories ++ [tid]
        rw [htt]
        exact List.mem_append_right _ (by simp)
    · rw [mapGet_mapSet_ne _ _ _ _ htt] at hget'
      obtain ⟨ag0, hag0, hmem0⟩ := h3 tid' t' hget' aid' hown'
      by_cases haa : aid' = aid
      · rw [haa, hA] at hag0
        injection hag0 with hag0
        refine ⟨{ ag with territories := ag.territories ++ [tid], armies := ag.armies + 3 }, ?_, ?_⟩
        · rw [haa]
          exact mapGet_mapSet_self _ _ _
        · show tid' ∈ ag.territories ++ [tid]
          exact List.mem_append_left _ (hag0 ▸ hmem0)
      · refine ⟨ag0, ?_, hmem0⟩
        rw [mapGet_mapSet_ne _ _ _ _ haa]
        exact hag0
  · show ∀ aid' ag', mapGet (mapSet cur.agents aid ({ ag with territories := ag.territories ++ [tid], armies := ag.armies + 3 })) aid' = some ag' → ag'.territories.Nodup ∧ (∀ tid', tid' ∈ ag'.territories → ∃ t', mapGet (mapSet cur.territories tid ({ t with owner := some aid, armies := 3 })) tid' = some t' ∧ t'.owner = some aid')
    intro aid' ag' hget'
    by_cases haa : aid' = aid
    · rw [haa, mapGet_mapSet_self] at hget'
      injection hget' with hag'
      obtain ⟨hnd0, hpt0⟩ := h4 aid ag hA
      constructor
      · rw [← hag']
        show (ag.territories ++ [tid]).Nodup
        rw [List.nodup_append]
        refine ⟨hnd0, List.nodup_singleton tid, ?_⟩
        intro x hx hx1
        rw [List.mem_singleton] at hx1
        rw [hx1] at hx
        exact htid_not hx
      · intro tid' htid'
        rw [← hag'] at htid'
        replace htid' : tid' ∈ ag.territories ++ [tid] := htid'
        rcases List.mem_append.mp htid' with hmem1 | hmem1
        · obtain ⟨t0, ht0, hown0⟩ := hpt0 tid' hmem1
          have hne : tid' ≠ tid := by
            intro he
            rw [he] at hmem1
            exact htid_not hmem1
          refine ⟨t0, ?_, ?_⟩
          · rw [mapGet_mapSet_ne _ _ _ _ hne]
            exact ht0
          · rw [haa]
            exact hown0
        · rw [List.mem_singleton] at hmem1
          rw [hmem1]
          refine ⟨{ t with owner := some aid, armies := 3 }, mapGet_mapSet_self _ _ _, ?_⟩
          show some aid = some aid'
          rw [haa]
    · rw [mapGet_mapSet_ne _ _ _ _ haa] at hget'
      obtain ⟨hnd0, hpt0⟩ := h4 aid' ag' hget'
      refine ⟨hnd0, ?_⟩
      intro tid' htid'
      obtain ⟨t0, ht0, hown0⟩ := hpt0 tid' htid'
      have hne : tid' ≠ tid := by
        intro he
        rw [he, hT] at ht0
        injection ht0 with ht0
        rw [← ht0, hfree] at hown0
        exact Option.noConfusion hown0
      refine ⟨t0, ?_, hown0⟩
      rw [mapGet_mapSet_ne _ _ _ _ hne]
      exact ht0

/-- Folding the distribution step over distinct, present, unowned
territory ids keeps the partition invariant. -/
theorem assign_fold_preserves (agentIds : List String)
    (hAne : agentIds ≠ []) :
    ∀ (es : List (Nat × String)) (cur : GameState),
      PartInvP cur →
      mapKeys cur.agents = agentIds →
      (es.map Prod.snd).Nodup →
      (∀ q ∈ es, q.2 ∈ mapKeys cur.territories) →
      (∀ q ∈ es, ∀ t, mapGet cur.territories q.2 = some t → t.owner = none) →
      PartInvP (es.foldl (assignStep agentIds) cur) := by
  intro es
  induction es with
  | nil =>
    intro cur hinv _ _ _ _
    exact hinv
  | cons q es ih =>
    intro cur hinv hkeys hnd hmem hfree
    rw [List.foldl_cons]
    have hqT : q.2 ∈ mapKeys cur.territories := hmem q (List.mem_cons_self q es)
    obtain ⟨t, hT⟩ := Option.isSome_iff_exists.mp (mapGet_isSome_of_mem_keys hqT)
    have hTfree : t.owner = none := hfree q (List.mem_cons_self q es) t hT
    have hlen : 0 < agentIds.length := List.length_pos.mpr hAne
    have hmod : q.1 % agentIds.length < agentIds.length := Nat.mod_lt _ hlen
    have haidmem : agentIds.getD (q.1 % agentIds.length) "" ∈ agentIds := by
      rw [List.getD_eq_getElem agentIds "" hmod]
      exact List.getElem_mem hmod
    have haidkeys : agentIds.getD (q.1 % agentIds.length) "" ∈ mapKeys cur.agents := by
      rw [hkeys]
      exact haidmem
    obtain ⟨ag, hA⟩ := Option.isSome_iff_exists.mp (mapGet_isSome_of_mem_keys haidkeys)
    have hstep : assignStep agentIds cur q = { cur with territories := mapSet cur.territories q.2 ({ t with owner := some (agentIds.getD (q.1 % agentIds.length) ""), armies := 3 }), agents := mapSet cur.agents (agentIds.getD (q.1 % agentIds.length) "") ({ ag with territories := ag.territories ++ [q.2], armies := ag.armies + 3 }) } := by
      simp only [assignStep, hT, hA]
    rw [hstep]
    have hndq : q.2 ∉ es.map Prod.snd ∧ (es.map Prod.snd).Nodup := by
      rw [List.map_cons, List.nodup_cons] at hnd
      exact hnd
    have hinv' := assign_one_preserves cur q.2
      (agentIds.getD (q.1 % agentIds.length) "") t ag hT hA hTfree hinv
    apply ih _ hinv'
    · show mapKeys (mapSet cur.agents (agentIds.getD (q.1 % agentIds.length) "") ({ ag with territories := ag.territories ++ [q.2], armies := ag.armies + 3 })) = agentIds
      rw [mapKeys_mapSet_of_get hA]
      exact hkeys
    · exact hndq.2
    · intro r hr
      show r.2 ∈ mapKeys (mapSet cur.territories q.2 ({ t with owner := some (agentIds.getD (q.1 % agentIds.length) ""), armies := 3 }))
      rw [mapKeys_mapSet_of_get hT]
      exact hmem r (List.mem_cons_of_mem q hr)
    · intro r hr t0 ht0
      have hrq : r.2 ≠ q.2 := by
        intro he
        apply hndq.1
        rw [← he]
        exact List.mem_map_of_mem Prod.snd hr
      replace ht0 : mapGet (mapSet cur.territories q.2 ({ t with owner := some (agentIds.getD (q.1 % agentIds.length) ""), armies := 3 })) r.2 = some t0 := ht0
      rw [mapGet_mapSet_ne _ _ _ _ hrq] at ht0
      exact hfree r (List.mem_cons_of_mem q hr) t0 ht0

/-- Setting resources on every agent reads back pointwise. -/
theorem mapGet_map_resources (m : JsMap Agent) (k : String) :
    mapGet (m.map (fun p => (p.1, { p.2 with resources := 10 }))) k =
      (mapGet m k).map (fun ag => { ag with resources := 10 }) := by
  induction m with
  | nil => rfl
  | cons p rest ih =>
    obtain ⟨k', v⟩ := p
    simp only [List.map_cons, mapGet]
    by_cases h : k' = k
    · rw [if_pos h, if_pos h]
      rfl
    · rw [if_neg h, if_neg h]
      exact ih

/-- Setting resources on every agent keeps the key list. -/
theorem mapKeys_map_resources (m : JsMap Agent) :
    mapKeys (m.map (fun p => (p.1, { p.2 with resources := 10 }))) =
      mapKeys m := by
  unfold mapKeys
  rw [List.map_map]
  rfl

/-- The initial-resource pass keeps the partition invariant: it touches
no owner field and no territory list. -/
theorem giveInitialResources_preserves (st : GameState)
    (hinv : PartInvP st) : PartInvP (giveInitialResources st) := by
  obtain ⟨h1, h2, h3, h4⟩ := hinv
  have hag_eq : (giveInitialResources st).agents =
      st.agents.map (fun p => (p.1, { p.2 with resources := 10 })) := rfl
  refine ⟨h1, ?_, ?_, ?_⟩
  · rw [hag_eq, mapKeys_map_resources]
    exact h2
  · intro tid t hget aid hown
    obtain ⟨ag, hag, hmem⟩ := h3 tid t hget aid hown
    refine ⟨{ ag with resources := 10 }, ?_, hmem⟩
    rw [hag_eq, mapGet_map_resources, hag]
    rfl
  · intro aid ag hget
    rw [hag_eq, mapGet_map_resources] at hget
    cases hg : mapGet st.agents aid with
    | none =>
      rw [hg] at hget
      exact Option.noConfusion hget
    | some ag0 =>
      rw [hg] at hget
      replace hget : some ({ ag0 with resources := 10 } : Agent) = some ag := hget
      injection hget with hget
      obtain ⟨hnd, hpt⟩ := h4 aid ag0 hg
      rw [← hget]
      exact ⟨hnd, hpt⟩

/-- Starting from a fresh state (all territories unowned, all agent
territory lists empty, duplicate-free keys, at least one agent),
`distributeTerritories` establishes the partition invariant. -/
theorem distributeTerritories_establishes (oracle : Nat → Nat)
    (st : GameState)
    (hTn : (mapKeys st.territories).Nodup)
    (hAn : (mapKeys st.agents).Nodup)
    (hAne : mapKeys st.agents ≠ [])
    (hfreeAll : ∀ p ∈ st.territories, p.2.owner = none)
    (hemptyAll : ∀ p ∈ st.agents, p.2.territories = []) :
    PartInvP (distributeTerritories oracle st) := by
  have hinv0 : PartInvP st := by
    refine ⟨hTn, hAn, ?_, ?_⟩
    · intro tid t hget aid hown
      have := hfreeAll (tid, t) (mem_of_mapGet hget)
      rw [hown] at this
      exact Option.noConfusion this
    · intro aid ag hget
      have he := hemptyAll (aid, ag) (mem_of_mapGet hget)
      rw [he]
      exact ⟨List.nodup_nil, fun tid htid => absurd htid (List.not_mem_nil tid)⟩
  have hperm : (fisherYates oracle (mapKeys st.territories)).Perm
      (mapKeys st.territories) := fisherYates_perm oracle _
  have hSnd : ((fisherYates oracle (mapKeys st.territories)).enum.map
      Prod.snd).Nodup := by
    rw [List.enum_map_snd]
    exact hperm.symm.nodup hTn
  have hfold := assign_fold_preserves (mapKeys st.agents) hAne
    (fisherYates oracle (mapKeys st.territories)).enum st hinv0 rfl hSnd
    (by
      intro q hq
      have : q.2 ∈ (fisherYates oracle (mapKeys st.territories)).enum.map Prod.snd :=
        List.mem_map_of_mem Prod.snd hq
      rw [List.enum_map_snd] at this
      exact hperm.mem_iff.mp this)
    (by
      intro q hq t ht
      exact hfreeAll (q.2, t) (mem_of_mapGet ht))
  exact giveInitialResources_preserves _ hfold

/-- C5: at every turn, after territory distribution and after each
engine mutation, the partition invariant holds: every territory's owner
is null or exactly one live participant, and the union of all
participants' owned-territory lists plus the unowned territories equals
the full territory set with no territory appearing twice (the
owned-territory lists are consistent with the territories' owner
fields).  Formally: `distributeTerritories` establishes `partitionInv`
on a fresh state (all territories unowned, all agent lists empty,
duplicate-free keys, at least one agent); `resolveBattles` preserves it
whenever every revealed attacker is a live participant; and
`removeAgent` preserves it unconditionally. -/
theorem partition_invariant_spec (oracle : Nat → Nat) (rand : Nat → ℚ)
    (st0 st1 st2 : GameState) (agentId : String) :
    ((mapKeys st0.territories).Nodup → (mapKeys st0.agents).Nodup →
      mapKeys st0.agents ≠ [] →
      (∀ p ∈ st0.territories, p.2.owner = none) →
      (∀ p ∈ st0.agents, p.2.territories = []) →
      partitionInv (distributeTerritories oracle st0) = true) ∧
    (partitionInv st1 = true → revealedAttackersLive st1 = true →
      partitionInv (resolveBattles st1 rand).1 = true) ∧
    (partitionInv st2 = true →
      partitionInv (removeAgent st2 agentId) = true) := by
  refine ⟨?_, ?_, ?_⟩
  · intro h1 h2 h3 h4 h5
    exact (partitionInv_iff _).mpr
      (distributeTerritories_establishes oracle st0 h1 h2 h3 h4 h5)
  · intro h1 h2
    exact resolveBattles_preserves st1 rand h1 h2
  · intro h1
    exact (partitionInv_iff _).mpr
      (removeAgent_preserves st2 agentId ((partitionInv_iff _).mp h1))

/-- A fixed shuffle oracle for the C5 witness. -/
def exOracleC5 : Nat → Nat := fun _ => 0

/-- A fixed battle-randomness oracle for the C5 witness. -/
def exRandC5 : Nat → ℚ := fun _ => 0

/-- A fresh two-territory, one-agent state before distribution. -/
def exStateC5fresh : GameState :=
  { gameId := "g5", phase := "setup", turn := 0, maxTurns := 10,
    agents := [("a1", { id := "a1", name := "Alpha", color := "#f00",
                        personality := none, territories := [], armies := 0,
                        resources := 0, eliminated := false })],
    territories :=
      [("t1", { id := "t1", name := "T1", region := "r", owner := none,
                armies := 0, resources := 1, neighbors := [], continent := "c" }),
       ("t2", { id := "t2", name := "T2", region := "r", owner := none,
                armies := 0, resources := 1, neighbors := [], continent := "c" })],
    continents := [], moves := [], revealedMoves := [], conversations := [],
    history := [], winner := none, phaseStartTime := none }

/-- A distributed state satisfying the partition invariant. -/
def exStateC5live : GameState :=
  { gameId := "g5", phase := "resolve", turn := 1, maxTurns := 10,
    agents := [("a1", { id := "a1", name := "Alpha", color := "#f00",
                        personality := none, territories := ["t1", "t2"],
                        armies := 6, resources := 10, eliminated := false })],
    territories :=
      [("t1", { id := "t1", name := "T1", region := "r", owner := some "a1",
                armies := 3, resources := 1, neighbors := [], continent := "c" }),
       ("t2", { id := "t2", name := "T2", region := "r", owner := some "a1",
                armies := 3, resources := 1, neighbors := [], continent := "c" })],
    continents := [], moves := [], revealedMoves := [], conversations := [],
    history := [], winner := none, phaseStartTime := none }

/-- C5 witness: the invariant concretely holds after distributing a
fresh state, after battle resolution, and after removing a participant. -/
theorem partition_invariant_spec_witness :
    partitionInv (distributeTerritories exOracleC5 exStateC5fresh) = true ∧
    partitionInv (resolveBattles exStateC5live exRandC5).1 = true ∧
    partitionInv (removeAgent exStateC5live "a1") = true :=
  ⟨(partition_invariant_spec exOracleC5 exRandC5 exStateC5fresh exStateC5live exStateC5live "a1").1
      (by decide) (by decide) (by decide) (by decide) (by decide),
   (partition_invariant_spec exOracleC5 exRandC5 exStateC5fresh exStateC5live exStateC5live "a1").2.1
      (by decide) (by decide),
   (partition_invariant_spec exOracleC5 exRandC5 exStateC5fresh exStateC5live exStateC5live "a1").2.2
      (by decide)⟩
